import Mathlib

/-!
Shallow embedding of the basana backtesting exchange
(src/basana/backtesting/exchange.py and src/basana/backtesting/lending.py).

Python `Decimal` values are modelled as exact rationals, and Python dicts keyed
by symbol are modelled as association lists (`ValDict`); a well-formed dict has
no duplicate keys, which theorems assume through `(keysD d).Nodup` hypotheses
where it matters.

Modules of the repository that are referenced by the two source files but are
not shipped under src/ (basana.core.helpers, basana.backtesting.helpers,
basana.backtesting.account_balances, basana.backtesting.orders, ...) are
modelled from the spec; each such definition carries a doc comment starting
with `Modelled from the spec:`.

The file is organised as definitions first, then theorems.
-/

namespace Basana

/-! ## Definitions -/

abbrev Dec := ℚ

/-- Modelled from the spec: `basana.core.helpers.truncate_decimal` (module not
under src/); spec section 3 requires truncation toward zero to `n` fractional
digits. -/
def truncate_decimal (q : Dec) (n : ℕ) : Dec :=
  if 0 ≤ q then (⌊q * (10 : ℚ) ^ n⌋ : ℚ) / (10 : ℚ) ^ n
  else (⌈q * (10 : ℚ) ^ n⌉ : ℚ) / (10 : ℚ) ^ n

/-- Rounds a rational to the nearest integer, ties going to the even integer. -/
def roundHalfEven (x : ℚ) : ℤ :=
  let f := ⌊x⌋
  let r := x - (f : ℚ)
  if r < 1 / 2 then f
  else if 1 / 2 < r then f + 1
  else if f % 2 = 0 then f else f + 1

/-- Modelled from the spec: `basana.core.helpers.round_decimal` with the
default ROUND_HALF_EVEN mode (module not under src/); spec section 3 requires
round-half-even to `n` digits. -/
def round_decimal (q : Dec) (n : ℕ) : Dec :=
  (roundHalfEven (q * (10 : ℚ) ^ n) : ℚ) / (10 : ℚ) ^ n

/-- Modelled from the spec: `basana.core.helpers.round_decimal` with the
decimal.ROUND_UP mode (away from zero), used by `Exchange._round_fees`; spec
section 4.4 requires fees to be rounded up. -/
def round_up_decimal (q : Dec) (n : ℕ) : Dec :=
  if 0 ≤ q then (⌈q * (10 : ℚ) ^ n⌉ : ℚ) / (10 : ℚ) ^ n
  else (⌊q * (10 : ℚ) ^ n⌋ : ℚ) / (10 : ℚ) ^ n

/-! ### Symbol-keyed dictionaries -/

abbrev ValDict := List (String × Dec)

def lookupD (d : ValDict) (s : String) : Option Dec := d.lookup s

/-- The amount a dict holds for a symbol, zero when the symbol is absent. -/
def valOf (d : ValDict) (s : String) : Dec := (lookupD d s).getD 0

def keysD (d : ValDict) : List String := d.map Prod.fst

/-- Updates every entry's value in place, like a Python loop that assigns
`ret[sym] = f(sym, ret[sym])`. -/
def mapVal (f : String → Dec → Dec) (d : ValDict) : ValDict :=
  d.map (fun p => (p.1, f p.1 p.2))

/-- Modelled from the spec: `basana.backtesting.helpers.remove_empty_amounts`
(module not under src/); drops entries whose amount is zero, as required by
spec sections 4.4 and 4.5 ("drop zeros", "zero entries are discarded"). -/
def remove_empty_amounts (d : ValDict) : ValDict :=
  d.filter (fun p => p.2 != 0)

/-- Modelled from the spec: `basana.backtesting.helpers.add_amounts` (module
not under src/); per-symbol pointwise sum of two dicts, spec section 4.5 step f
("final = updates + fees (sum per symbol)"). -/
def add_amounts (d1 d2 : ValDict) : ValDict :=
  mapVal (fun s v => v + valOf d2 s) d1 ++ d2.filter (fun p => (lookupD d1 p.1).isNone)

/-- Negates every amount of a dict (`{sym: -amt for sym, amt in d.items()}`). -/
def negD (d : ValDict) : ValDict := mapVal (fun _ v => -v) d

/-! ### Pairs, bars and pair information -/

structure Pair where
  base_symbol : String
  quote_symbol : String
deriving DecidableEq

structure PairInfo where
  base_precision : ℕ
  quote_precision : ℕ
deriving DecidableEq

/-- Modelled from the spec: `basana.core.bar.Bar` (module not under src/), spec
section 3: Bar = (pair, datetime, open, high, low, close, volume). The datetime
is irrelevant to the claims and omitted. -/
structure Bar where
  pair : Pair
  open_price : Dec
  high : Dec
  low : Dec
  close : Dec
  volume : Dec

/-! ### Bid/ask quoting (claims C7 and C10)

The slice of the `Exchange` state used by `get_bid_ask`: the last bar seen per
pair, the configured spread, and the per-pair precision configuration. -/

structure QuoteState where
  last_bars : Pair → Option Bar
  bid_ask_spread : Dec
  pair_info : Pair → PairInfo

/-- From src/basana/backtesting/exchange.py lines 581-583
(`Exchange._get_last_price`): the close of the last bar seen for the pair, if
any. -/
def get_last_price (st : QuoteState) (pair : Pair) : Option Dec :=
  (st.last_bars pair).map Bar.close

/-- From src/basana/backtesting/exchange.py lines 190-208
(`Exchange.get_bid_ask`). The source tests `if last_price:` — Python
truthiness — so a zero closing price takes the no-quote path exactly like a
missing bar does. -/
def get_bid_ask (st : QuoteState) (pair : Pair) : Option Dec × Option Dec :=
  match get_last_price st pair with
  | none => (none, none)
  | some last_price =>
    if last_price ≠ 0 then
      let pi := st.pair_info pair
      let half_spread :=
        truncate_decimal (last_price * st.bid_ask_spread / 100 / 2) pi.quote_precision
      (some (last_price - half_spread), some (last_price + half_spread))
    else (none, none)

def c7Bar : Bar :=
  { pair := ⟨"BTC", "USD"⟩, open_price := 100, high := 110, low := 95,
    close := 105, volume := 10 }

def c7State : QuoteState :=
  { last_bars := fun p => if p = ⟨"BTC", "USD"⟩ then some c7Bar else none,
    bid_ask_spread := 1 / 2,
    pair_info := fun _ => ⟨8, 2⟩ }

def c7ZeroBar : Bar :=
  { pair := ⟨"ETH", "USD"⟩, open_price := 1, high := 2, low := 0,
    close := 0, volume := 3 }

def c7ZeroState : QuoteState :=
  { last_bars := fun p => if p = ⟨"ETH", "USD"⟩ then some c7ZeroBar else none,
    bid_ask_spread := 1 / 2,
    pair_info := fun _ => ⟨8, 2⟩ }

def c10Bar : Bar :=
  { pair := ⟨"XRP", "USD"⟩, open_price := 3, high := 4, low := 0,
    close := 0, volume := 7 }

def c10State : QuoteState :=
  { last_bars := fun p => if p = ⟨"XRP", "USD"⟩ then some c10Bar else none,
    bid_ask_spread := 1 / 2,
    pair_info := fun _ => ⟨8, 2⟩ }

/-! ### Orders

basana.backtesting.orders is not under src/, so the order entity is modelled
from the spec (sections 3, 4.2 and 9). -/

inductive OrderOperation
  | buy
  | sell
deriving DecidableEq

inductive OrderState
  | open_
  | completed
  | canceled
deriving DecidableEq

inductive OrderKind
  | market
  | limit
  | stop
  | stopLimit
deriving DecidableEq

/-- Modelled from the spec: the order entity of spec section 3 — id, pair,
operation, original amount, amount filled, state, fills — with the subtype as
a tag (spec section 9 suggests exactly this tagged-variant modelling). A fill
is recorded as its (balance_updates, fees) pair; the fill timestamp is
irrelevant to the claims. -/
structure Order where
  id : String
  pair : Pair
  operation : OrderOperation
  kind : OrderKind
  state : OrderState
  amount : Dec
  amount_filled : Dec
  fills : List (ValDict × ValDict)
deriving DecidableEq

/-- Spec section 3: `is_open` iff state = OPEN. -/
def Order.is_open (o : Order) : Bool := o.state == OrderState.open_

/-- Modelled from the spec (section 4.2): `not_filled` cancels a Market order
("Market orders transition to CANCELED; Limit/Stop/StopLimit remain OPEN"). -/
def Order.not_filled (o : Order) : Order :=
  match o.kind with
  | OrderKind.market => { o with state := OrderState.canceled }
  | _ => o

/-- Modelled from the spec (section 3 lifecycle): `cancel` moves the order to
CANCELED. -/
def Order.cancel (o : Order) : Order := { o with state := OrderState.canceled }

/-- Modelled from the spec (section 4.2): `add_fill` commits a fill, increases
`amount_filled` by the fill's base amount, appends the fill, and completes the
order once fully filled. -/
def Order.add_fill (o : Order) (balance_updates fees : ValDict) : Order :=
  let filled := o.amount_filled + |valOf balance_updates o.pair.base_symbol|
  { o with amount_filled := filled,
           fills := o.fills ++ [(balance_updates, fees)],
           state := if o.amount ≤ filled then OrderState.completed else o.state }

/-- Modelled from the spec: `get_base_sign_for_operation` of
basana.backtesting.helpers (not under src/); spec section 4.2:
base_sign = +1 if BUY else −1. -/
def get_base_sign_for_operation (op : OrderOperation) : Dec :=
  match op with
  | OrderOperation.buy => 1
  | OrderOperation.sell => -1

/-- Modelled from the spec: `get_sign` of basana.backtesting.helpers (not
under src/): the sign of a decimal. -/
def get_sign (v : Dec) : Dec :=
  if 0 < v then 1 else if v < 0 then -1 else 0

/-! ### The balance ledger

basana.backtesting.account_balances is not under src/; the ledger is modelled
from spec section 4.1. -/

/-- Modelled from the spec: the order-facing slice of `AccountBalances` —
per-symbol available and borrowed amounts plus the per-(order id, symbol) hold
table of spec section 4.1. `symbols` is the registry of known symbols (for
`get_balances`) and `order_ids` lists the orders that may hold balances, so
the per-symbol hold can be summed. -/
structure OrderLedger where
  symbols : List String
  order_ids : List String
  available : String → Dec
  borrowed : String → Dec
  holds : String → String → Dec

/-- Spec section 4.1: `hold(sym)` is the sum across orders of
`hold_for_order(o, sym)`. -/
def OrderLedger.hold_on (lg : OrderLedger) (sym : String) : Dec :=
  (lg.order_ids.map (fun oid => lg.holds oid sym)).sum

/-- Modelled from the spec (section 4.1 `order_updated`): applies the final
per-symbol updates to available balances; when the order is no longer open its
remaining holds are released back to available and its hold row cleared. (For
a still-open order the spec leaves the hold-rebalance policy to the
implementation; the claims proved here never depend on that branch's hold
table.) -/
def OrderLedger.order_updated (lg : OrderLedger) (o : Order) (final : ValDict) :
    OrderLedger :=
  let avail1 : String → Dec := fun s => lg.available s + valOf final s
  if o.is_open then { lg with available := avail1 }
  else
    { lg with
      available := fun s => avail1 s + lg.holds o.id s,
      holds := fun oid s => if oid = o.id then 0 else lg.holds oid s }

/-! ### The balance facade (claim C9) -/

/-- From src/basana/backtesting/exchange.py lines 98-112: the `Balance`
dataclass. In the source `total` is computed from the other fields in
`__post_init__`; it is modelled as the derived field `Balance.total`. -/
structure Balance where
  available : Dec
  hold : Dec
  borrowed : Dec
  interest : Dec
deriving DecidableEq

/-- From src/basana/backtesting/exchange.py line 112:
total = (available + hold) - (borrowed + interest). -/
def Balance.total (b : Balance) : Dec :=
  (b.available + b.hold) - (b.borrowed + b.interest)

/-- From src/basana/backtesting/exchange.py lines 616-622
(`Exchange._get_balance`): interest is hard-coded to `Decimal(0)`. -/
def get_balance (lg : OrderLedger) (symbol : String) : Balance :=
  { available := lg.available symbol, hold := lg.hold_on symbol,
    borrowed := lg.borrowed symbol, interest := 0 }

/-- From src/basana/backtesting/exchange.py lines 183-188
(`Exchange.get_balances`): one `_get_balance` per known symbol. -/
def get_balances (lg : OrderLedger) : List (String × Balance) :=
  lg.symbols.map (fun s => (s, get_balance lg s))

def c9Ledger : OrderLedger :=
  { symbols := ["USD", "BTC"], order_ids := ["o1"],
    available := fun s => if s = "USD" then 1000 else 0,
    borrowed := fun s => if s = "BTC" then 2 else 0,
    holds := fun oid s => if oid = "o1" ∧ s = "USD" then 50 else 0 }

/-! ### Fee rounding (claim C8) -/

/-- The precision lookup used by `_round_fees`: the Python dict literal
`{base: base_precision, quote: quote_precision}` (the later key wins when base
and quote coincide, hence quote is tested first). -/
def precisions_get (pair : Pair) (pi : PairInfo) (symbol : String) : Option ℕ :=
  if symbol = pair.quote_symbol then some pi.quote_precision
  else if symbol = pair.base_symbol then some pi.base_precision
  else none

/-- From src/basana/backtesting/exchange.py lines 455-469
(`Exchange._round_fees`): fees in the base or quote symbol are rounded with
ROUND_UP to the pair's corresponding precision, fees in other symbols are left
as-is (the precision is unknown), and zero entries are dropped. -/
def round_fees (pi : PairInfo) (pair : Pair) (fees : ValDict) : ValDict :=
  remove_empty_amounts
    (mapVal (fun s v =>
      match precisions_get pair pi s with
      | some prec => if v ≠ 0 then round_up_decimal v prec else v
      | none => v) fees)

def c8Pair : Pair := ⟨"BTC", "USD"⟩

def c8Pi : PairInfo := ⟨8, 2⟩

def c8Fees : ValDict := [("BTC", 1 / 3), ("USD", 3 / 1000), ("BNB", 7 / 100), ("EUR", 0)]

/-! ### Order cancelation (claim C5) -/

inductive ExchangeError
  | orderNotFound
  | illegalState
  | notEnoughBalance
  | assertionFailed
deriving DecidableEq

/-- The slice of the `Exchange` state that `cancel_order` touches: the order
container (orders represented directly, retrieval by id via `find?` mirroring
the container's by-id dict) and the balance ledger. -/
structure CancelExchangeState where
  orders : List Order
  ledger : OrderLedger

/-- From src/basana/backtesting/exchange.py lines 305-320
(`Exchange.cancel_order`): an unknown id raises "Order not found" and a
non-open order raises "order can't be canceled" — in both cases before any
mutation; otherwise the order is canceled and `order_updated(order, {})`
releases its holds. -/
def cancel_order (st : CancelExchangeState) (order_id : String) :
    Except ExchangeError CancelExchangeState :=
  match st.orders.find? (fun o => o.id == order_id) with
  | none => Except.error ExchangeError.orderNotFound
  | some o =>
    if ¬ o.is_open then Except.error ExchangeError.illegalState
    else
      let o' := o.cancel
      Except.ok
        { orders := st.orders.map (fun x => if x.id == order_id then o' else x),
          ledger := st.ledger.order_updated o' [] }

def c5Order : Order :=
  { id := "o1", pair := ⟨"BTC", "USD"⟩, operation := OrderOperation.buy,
    kind := OrderKind.limit, state := OrderState.open_, amount := 1,
    amount_filled := 0, fills := [] }

def c5Ledger : OrderLedger :=
  { symbols := ["USD", "BTC"], order_ids := ["o1"],
    available := fun s => if s = "USD" then 903 else 0,
    borrowed := fun _ => 0,
    holds := fun oid s => if oid = "o1" ∧ s = "USD" then 97 else 0 }

def c5State : CancelExchangeState := { orders := [c5Order], ledger := c5Ledger }

/-! ### Per-pair liquidity strategy retention (claim C1) -/

/-- The slice of `Exchange` state that `_process_orders` uses to obtain a
pair's liquidity strategy. Strategy instances are modelled by allocation
numbers: `next_instance` counts factory invocations, so two equal numbers
denote the same Python object and two different numbers denote distinct
objects. -/
structure StrategyRegistry where
  liquidity_strategies : List (Pair × ℕ)
  next_instance : ℕ
deriving DecidableEq

/-- From src/basana/backtesting/exchange.py lines 536-541
(`Exchange._process_orders`), the strategy-selection step: fetch the pair's
strategy from `_liquidity_strategies`, or create a fresh one via the factory
when the dict has no entry. The source never stores the created strategy back
into `_liquidity_strategies`, so on the miss path the registry list is
returned unchanged and only the factory counter advances. The returned number
is the instance that receives this bar's `on_bar`, `calculate_price` and
`take_liquidity` calls. -/
def process_orders_strategy (st : StrategyRegistry) (barPair : Pair) :
    ℕ × StrategyRegistry :=
  match st.liquidity_strategies.lookup barPair with
  | some inst => (inst, st)
  | none => (st.next_instance, { st with next_instance := st.next_instance + 1 })

/-- From src/basana/backtesting/exchange.py lines 153-174 (`Exchange.__init__`):
`_liquidity_strategies` starts out empty. -/
def initialRegistry : StrategyRegistry :=
  { liquidity_strategies := [], next_instance := 0 }

/-- Runs the strategy-selection step over a stream of bar pairs, returning the
instance that handled each bar. -/
def run_bars (st : StrategyRegistry) : List Pair → List ℕ × StrategyRegistry
  | [] => ([], st)
  | p :: rest =>
    let r1 := process_orders_strategy st p
    let r2 := run_bars r1.2 rest
    (r1.1 :: r2.1, r2.2)

/-! ### The open-items container (claim C6) -/

/-- From src/basana/backtesting/exchange.py lines 63-95
(`ExchangeObjectContainer`). Items are represented by their ids; `items` is
the by-id registry paired with each item's current `is_open` flag (in the
source the flag lives on the stored object and is flipped by order/loan
lifecycle transitions, modelled by the `close` operation below). -/
structure Container where
  items : List (String × Bool)
  open_items : List String
  reindex_counter : ℕ
deriving DecidableEq

def Container.empty : Container :=
  { items := [], open_items := [], reindex_counter := 0 }

/-- Whether the registered item with this id is currently open. -/
def item_is_open (items : List (String × Bool)) (id : String) : Bool :=
  (items.lookup id).getD false

/-- From `ExchangeObjectContainer.add` (lines 70-74): the source asserts the
id is fresh (a duplicate add is modelled as rejected with no change); the item
is registered and, when open, appended to the open index. -/
def Container.add (c : Container) (id : String) (is_open : Bool) : Container :=
  if (c.items.lookup id).isSome then c
  else
    { c with items := c.items ++ [(id, is_open)],
             open_items := if is_open then c.open_items ++ [id] else c.open_items }

/-- An item closes: the stored object's `is_open` flag flips to false (order
completion or cancelation, loan close); the container itself is not
informed. -/
def Container.close (c : Container) (id : String) : Container :=
  { c with items := c.items.map (fun p => (p.1, if p.1 = id then false else p.2)) }

/-- From `ExchangeObjectContainer.get_open` (lines 79-92): bump the reindex
counter, yield the still-open items of the index in order, and on every 50th
call replace the index with the yielded items. (The source re-checks
`item.is_open` after each yield before putting the item into `new_open_items`;
with no mutation between the two checks — the claim's add/close operations
happen between `get_open` calls — both checks coincide.) -/
def Container.get_open (c : Container) : List String × Container :=
  let counter := c.reindex_counter + 1
  let yielded := c.open_items.filter (fun id => item_is_open c.items id)
  if counter % 50 == 0 then
    (yielded, { c with reindex_counter := counter, open_items := yielded })
  else
    (yielded, { c with reindex_counter := counter })

inductive ContainerOp
  | add (id : String) (is_open : Bool)
  | close (id : String)
  | getOpen
deriving DecidableEq

def Container.applyOp (c : Container) : ContainerOp → Container
  | ContainerOp.add id b => c.add id b
  | ContainerOp.close id => c.close id
  | ContainerOp.getOpen => c.get_open.2

def Container.run (ops : List ContainerOp) : Container :=
  ops.foldl Container.applyOp Container.empty

/-- The ids of the open items, in insertion order. -/
def openIds (items : List (String × Bool)) : List String :=
  (items.filter (fun p => p.2)).map Prod.fst

/-- Container invariant: registered keys are unique, the open index has no
duplicates, mentions only registered ids, and its still-open entries are
exactly the open items in insertion order. -/
structure ContainerInv (c : Container) : Prop where
  keys_nodup : (c.items.map Prod.fst).Nodup
  index_nodup : c.open_items.Nodup
  index_reg : ∀ id ∈ c.open_items, (c.items.lookup id).isSome
  index_filter :
    c.open_items.filter (fun id => item_is_open c.items id) = openIds c.items

def c6Ops : List ContainerOp :=
  [ContainerOp.add "a" true, ContainerOp.add "b" true, ContainerOp.close "a",
   ContainerOp.add "c" true]

/-! ### Balance-update rounding and per-bar matching (claims C2 and C4) -/

/-- From src/basana/backtesting/exchange.py lines 437-453
(`Exchange._round_balance_updates`): the base amount (if present and nonzero)
is truncated toward zero to base_precision; then the quote amount (if present
and nonzero, reading the already-updated dict — which matters only if base and
quote coincided) is rounded half-even to quote_precision; zero entries are
dropped. -/
def round_balance_updates (pi : PairInfo) (pair : Pair)
    (balance_updates : ValDict) : ValDict :=
  let d1 := mapVal (fun s v =>
    if s = pair.base_symbol ∧ v ≠ 0 then truncate_decimal v pi.base_precision else v)
    balance_updates
  let d2 := mapVal (fun s v =>
    if s = pair.quote_symbol ∧ v ≠ 0 then round_decimal v pi.quote_precision else v) d1
  remove_empty_amounts d2

/-- From src/basana/backtesting/exchange.py lines 43-47 (`assert_has_value`):
the symbol must be present with a nonzero amount of the expected sign. -/
def has_value_with_sign (balance_updates : ValDict) (symbol : String)
    (sign : Dec) : Bool :=
  match lookupD balance_updates symbol with
  | none => false
  | some v => decide (v ≠ 0) && decide (get_sign v = sign)

/-- From src/basana/backtesting/exchange.py lines 553-579
(`Exchange._check_balance_requirements`): walks the required balances; a
non-positive requirement trips the source's assert; the available headroom is
available(sym) plus, when an order is given, hold_for_order(order_id, sym);
a shortfall flips the running result to False and, with raise_if_short set,
raises instead. -/
def check_balance_requirements (lg : OrderLedger) (oid : Option String)
    (raise_if_short : Bool) :
    List (String × Dec) → Bool → Except ExchangeError Bool
  | [], acc => Except.ok acc
  | (symbol, required) :: rest, acc =>
    if required ≤ 0 then Except.error ExchangeError.assertionFailed
    else
      let available_balance := lg.available symbol +
        (match oid with
         | some i => lg.holds i symbol
         | none => 0)
      if required ≤ available_balance then
        check_balance_requirements lg oid raise_if_short rest acc
      else if raise_if_short then Except.error ExchangeError.notEnoughBalance
      else check_balance_requirements lg oid raise_if_short rest false

/-- The required-balances dict of `_process_order` line 517:
`{sym: −amt for sym, amt in final_updates.items() if amt < 0}`. -/
def required_of (final_updates : ValDict) : ValDict :=
  mapVal (fun _ v => -v) (final_updates.filter (fun p => decide (p.2 < 0)))

/-- `order_not_filled` from `_process_order` lines 474-479: the order takes
its not-filled transition and, if that closed it, its holds are released via
`order_updated(order, {})`. -/
def apply_not_filled (order : Order) (lg : OrderLedger) : Order × OrderLedger :=
  let o1 := order.not_filled
  if o1.is_open then (o1, lg) else (o1, lg.order_updated o1 [])

structure ProcessOrderResult where
  order : Order
  ledger : OrderLedger
  liquidity : Dec

/-- From src/basana/backtesting/exchange.py lines 471-534
(`Exchange._process_order`). `balance_updates0` stands for the result of the
pure call `order.get_balance_updates(bar, liquidity_strategy)` (the orders
module is not under src/; spec section 4.2 makes it a pure, state-preserving
function, so the embedding takes the resulting dict as a parameter and the
theorems quantify over it). `calc_fees` is the fee strategy's
`calculate_fees`. `liquidity` is the remaining base-volume budget of the
pair's liquidity strategy; `take_liquidity` subtracts from it (spec section
4.3). The source's asserts (lines 490, 499-500 and the one inside
`_check_balance_requirements`) are modelled as `assertionFailed` errors. -/
def process_order (pi : PairInfo) (calc_fees : Order → ValDict → ValDict)
    (balance_updates0 : ValDict) (bar_pair : Pair) (order : Order)
    (lg : OrderLedger) (liquidity : Dec) :
    Except ExchangeError ProcessOrderResult :=
  if balance_updates0.isEmpty then
    let r := apply_not_filled order lg
    Except.ok ⟨r.1, r.2, liquidity⟩
  else
    let base_sign := get_base_sign_for_operation order.operation
    if ¬ has_value_with_sign balance_updates0 order.pair.base_symbol base_sign then
      Except.error ExchangeError.assertionFailed
    else if ¬ has_value_with_sign balance_updates0 order.pair.quote_symbol
        (-base_sign) then
      Except.error ExchangeError.assertionFailed
    else
      let balance_updates := round_balance_updates pi order.pair balance_updates0
      if (lookupD balance_updates order.pair.base_symbol).isNone ∨
          (lookupD balance_updates order.pair.quote_symbol).isNone then
        let r := apply_not_filled order lg
        Except.ok ⟨r.1, r.2, liquidity⟩
      else
        let fees := round_fees pi order.pair (calc_fees order balance_updates)
        let final_updates := remove_empty_amounts (add_amounts balance_updates fees)
        let required_balances := required_of final_updates
        match check_balance_requirements lg (some order.id) false
            required_balances true with
        | Except.error e => Except.error e
        | Except.ok balance_ok =>
          if balance_ok then
            let liquidity1 := liquidity - |valOf balance_updates bar_pair.base_symbol|
            let order1 := order.add_fill balance_updates fees
            let lg1 := lg.order_updated order1 final_updates
            Except.ok ⟨order1, lg1, liquidity1⟩
          else
            let r := apply_not_filled order lg
            Except.ok ⟨r.1, r.2, liquidity⟩

def c2Order : Order :=
  { id := "o1", pair := ⟨"BTC", "USD"⟩, operation := OrderOperation.buy,
    kind := OrderKind.market, state := OrderState.open_, amount := 1,
    amount_filled := 0, fills := [] }

def c2Ledger : OrderLedger :=
  { symbols := ["USD", "BTC"], order_ids := ["o1"],
    available := fun s => if s = "USD" then 50 else 0,
    borrowed := fun _ => 0,
    holds := fun oid s => if oid = "o1" ∧ s = "USD" then 40 else 0 }

def c2Updates : ValDict := [("BTC", 1), ("USD", -100)]

def c2Pi : PairInfo := ⟨8, 2⟩

def c4Order : Order :=
  { id := "o2", pair := ⟨"BTC", "USD"⟩, operation := OrderOperation.buy,
    kind := OrderKind.market, state := OrderState.open_, amount := 1 / 2,
    amount_filled := 0, fills := [] }

def c4Ledger : OrderLedger :=
  { symbols := ["USD", "BTC"], order_ids := ["o2"],
    available := fun s => if s = "USD" then 1000 else 0,
    borrowed := fun _ => 0,
    holds := fun oid s => if oid = "o2" ∧ s = "USD" then 60 else 0 }

def c4Updates : ValDict := [("BTC", 1 / 2), ("USD", -50)]

def c4Pi : PairInfo := ⟨0, 2⟩

/-! ### The lending subsystem (claim C3) -/

inductive LendingError
  | loanNotFound
  | loanNotOpen
  | notEnoughBalance
deriving DecidableEq

/-- From src/basana/backtesting/lending.py lines 45-89 (`Loan`): id, borrowed
symbol and amount, and the open flag. `calculate_interest` is abstract and
strategy-specific; since no concrete lending strategy ships under src/, the
interest dict the loan reports at repayment time is carried as the field
`interest_at_repay`. -/
structure Loan where
  id : String
  borrowed_symbol : String
  borrowed_amount : Dec
  is_open : Bool
  interest_at_repay : ValDict
deriving DecidableEq

/-- From src/basana/backtesting/lending.py lines 79-81 (`Loan.close`). -/
def Loan.close (l : Loan) : Loan := { l with is_open := false }

/-- Modelled from the spec: the slice of `AccountBalances` used by
`LoanManager` (basana.backtesting.account_balances is not under src/); spec
section 4.1: per-symbol available, borrowed and hold amounts. -/
structure LoanLedger where
  available : String → Dec
  borrowed : String → Dec
  hold : String → Dec

/-- Modelled from the spec: `AccountBalances.update` as invoked by
`LoanManager` — a transactional three-part update (spec section 9: "stage
updates, verify invariants, then commit"; section 4.1: "If any available goes
negative, fail with NotEnoughBalance and roll back"). It fails, producing no
state, exactly when some updated symbol's available balance would go
negative. -/
def LoanLedger.update (lg : LoanLedger)
    (balance_updates borrowed_updates hold_updates : ValDict) :
    Except LendingError LoanLedger :=
  if balance_updates.any
      (fun p => decide (lg.available p.1 + valOf balance_updates p.1 < 0)) then
    Except.error LendingError.notEnoughBalance
  else
    Except.ok
      { available := fun s => lg.available s + valOf balance_updates s,
        borrowed := fun s => lg.borrowed s + valOf borrowed_updates s,
        hold := fun s => lg.hold s + valOf hold_updates s }

/-- The `LoanManager` state: loans by id, per-loan collateral (lending.py line
133, `_collateral_by_loan`), the ledger, and the per-symbol precision
configuration (`config.get_symbol_info(sym).precision`; the config module is
not under src/ and is modelled as a function). -/
structure LoanManagerState where
  loans : List Loan
  collateral_by_loan : List (String × ValDict)
  balances : LoanLedger
  symbol_precision : String → ℕ

/-- From src/basana/backtesting/lending.py lines 164-194
(`LoanManager.repay_loan`): an unknown id or a closed loan raises; interest is
truncated per symbol to the configured precision; one transactional ledger
update debits the borrowed amount and the interest from available, debits
borrowed, and releases the collateral holds; only on success is the loan
closed and its collateral entry dropped. (The source indexes
`_collateral_by_loan[loan_id]` directly; the manager's invariant that every
open loan has a collateral entry makes the `getD []` default unreachable.) -/
def repay_loan (st : LoanManagerState) (loan_id : String) :
    Except LendingError LoanManagerState :=
  match st.loans.find? (fun l => l.id == loan_id) with
  | none => Except.error LendingError.loanNotFound
  | some loan =>
    if ¬ loan.is_open then Except.error LendingError.loanNotOpen
    else
      let interest := mapVal (fun s v => truncate_decimal v (st.symbol_precision s))
        loan.interest_at_repay
      let collateral := (st.collateral_by_loan.lookup loan_id).getD []
      let balance_updates :=
        add_amounts [(loan.borrowed_symbol, -loan.borrowed_amount)] (negD interest)
      match st.balances.update balance_updates
          [(loan.borrowed_symbol, -loan.borrowed_amount)] (negD collateral) with
      | Except.error e => Except.error e
      | Except.ok lg1 =>
        Except.ok
          { loans := st.loans.map (fun l => if l.id == loan_id then l.close else l),
            collateral_by_loan :=
              st.collateral_by_loan.filter (fun p => !(p.1 == loan_id)),
            balances := lg1,
            symbol_precision := st.symbol_precision }

def c3Loan : Loan :=
  { id := "l1", borrowed_symbol := "USDT", borrowed_amount := 100,
    is_open := true, interest_at_repay := [("USDT", 7 / 2)] }

def c3State : LoanManagerState :=
  { loans := [c3Loan],
    collateral_by_loan := [("l1", [("BTC", 2)])],
    balances :=
      { available := fun s => if s = "USDT" then 150 else 0,
        borrowed := fun s => if s = "USDT" then 100 else 0,
        hold := fun s => if s = "BTC" then 2 else 0 },
    symbol_precision := fun _ => 0 }

/-! ## Theorems -/

theorem lookupD_nil (s : String) : lookupD [] s = none := rfl

theorem lookupD_cons_self (k : String) (v : Dec) (rest : ValDict) :
    lookupD ((k, v) :: rest) k = some v := by
  simp [lookupD, List.lookup]

theorem lookupD_cons_ne (p : String × Dec) (rest : ValDict) (s : String)
    (h : s ≠ p.1) : lookupD (p :: rest) s = lookupD rest s := by
  obtain ⟨k, v⟩ := p
  have hb : (s == k) = false := by simpa using h
  simp [lookupD, List.lookup, hb]

theorem lookupD_eq_none_of_not_mem (d : ValDict) (s : String)
    (h : s ∉ keysD d) : lookupD d s = none := by
  simp only [lookupD, List.lookup_eq_none_iff]
  intro p hp
  simp only [bne_iff_ne, ne_eq]
  intro hsp
  exact h (hsp ▸ List.mem_map_of_mem Prod.fst hp)

theorem lookupD_mapVal (f : String → Dec → Dec) (d : ValDict) (s : String) :
    lookupD (mapVal f d) s = (lookupD d s).map (f s) := by
  induction d with
  | nil => rfl
  | cons p rest ih =>
    obtain ⟨k, v⟩ := p
    by_cases h : s = k
    · subst h
      simp [mapVal, lookupD_cons_self, lookupD, List.lookup_cons]
    · have h1 : lookupD (mapVal f ((k, v) :: rest)) s = lookupD (mapVal f rest) s := by
        simpa [mapVal] using lookupD_cons_ne (k, f k v) (mapVal f rest) s h
      have h2 : lookupD ((k, v) :: rest) s = lookupD rest s :=
        lookupD_cons_ne (k, v) rest s h
      rw [h1, h2, ih]

theorem keysD_mapVal (f : String → Dec → Dec) (d : ValDict) :
    keysD (mapVal f d) = keysD d := by
  simp [keysD, mapVal, List.map_map, Function.comp_def]

theorem mem_keysD_of_mem_filter (f : String × Dec → Bool) (d : ValDict)
    (s : String) (h : s ∈ keysD (d.filter f)) : s ∈ keysD d := by
  simp only [keysD, List.mem_map] at *
  obtain ⟨p, hp, hps⟩ := h
  exact ⟨p, List.mem_of_mem_filter hp, hps⟩

/-- How a Python-style dict filter interacts with lookup: with unique keys, the
entry for `s` survives exactly when the predicate accepts it. -/
theorem lookupD_filter (f : String × Dec → Bool) (d : ValDict) (s : String)
    (hnd : (keysD d).Nodup) :
    lookupD (d.filter f) s =
      match lookupD d s with
      | none => none
      | some v => if f (s, v) then some v else none := by
  induction d with
  | nil => rfl
  | cons p rest ih =>
    obtain ⟨k, v⟩ := p
    simp only [keysD, List.map_cons, List.nodup_cons] at hnd
    by_cases h : s = k
    · subst h
      by_cases hf : f (s, v)
      · simp [List.filter_cons, hf, lookupD_cons_self]
      · have hnone : lookupD (rest.filter f) s = none := by
          apply lookupD_eq_none_of_not_mem
          intro hmem
          exact hnd.1 (mem_keysD_of_mem_filter f rest s hmem)
        simp [List.filter_cons, hf, lookupD_cons_self, hnone]
    · have h2 : lookupD ((k, v) :: rest) s = lookupD rest s :=
        lookupD_cons_ne (k, v) rest s h
      by_cases hf : f (k, v)
      · have h1 : lookupD (((k, v) :: rest).filter f) s = lookupD (rest.filter f) s := by
          rw [List.filter_cons]
          simp only [hf, if_true]
          exact lookupD_cons_ne (k, v) (rest.filter f) s h
        rw [h1, h2, ih hnd.2]
      · have h1 : lookupD (((k, v) :: rest).filter f) s = lookupD (rest.filter f) s := by
          rw [List.filter_cons]
          simp [hf]
        rw [h1, h2, ih hnd.2]

theorem lookupD_remove_empty_amounts (d : ValDict) (s : String)
    (hnd : (keysD d).Nodup) :
    lookupD (remove_empty_amounts d) s =
      match lookupD d s with
      | none => none
      | some v => if v = 0 then none else some v := by
  rw [remove_empty_amounts, lookupD_filter _ d s hnd]
  cases lookupD d s with
  | none => rfl
  | some v =>
    by_cases hv : v = 0 <;> simp [hv]

/-- A filter whose predicate looks only at the key keeps every entry for a key
it accepts. -/
theorem lookupD_filter_key_true (g : String → Bool) (d : ValDict) (s : String)
    (h : g s = true) :
    lookupD (d.filter (fun p => g p.1)) s = lookupD d s := by
  induction d with
  | nil => rfl
  | cons p rest ih =>
    obtain ⟨k, v⟩ := p
    by_cases hs : s = k
    · subst hs
      simp [List.filter_cons, h, lookupD_cons_self]
    · rw [lookupD_cons_ne (k, v) rest s hs, List.filter_cons]
      by_cases hk : g k
      · simp only [hk, if_true]
        rw [lookupD_cons_ne (k, v) _ s hs, ih]
      · simp only [hk]
        simpa using ih

theorem valOf_add_amounts (d1 d2 : ValDict) (s : String) :
    valOf (add_amounts d1 d2) s = valOf d1 s + valOf d2 s := by
  cases hl : lookupD d1 s with
  | some v =>
    have hm : lookupD (mapVal (fun s v => v + valOf d2 s) d1) s =
        some (v + valOf d2 s) := by
      rw [lookupD_mapVal, hl]; rfl
    have hleft : lookupD (add_amounts d1 d2) s = some (v + valOf d2 s) := by
      simp only [add_amounts, lookupD] at *
      rw [List.lookup_append, hm]
      rfl
    simp [valOf, hleft, hl]
  | none =>
    have hm : lookupD (mapVal (fun s v => v + valOf d2 s) d1) s = none := by
      rw [lookupD_mapVal, hl]; rfl
    have happ : lookupD (add_amounts d1 d2) s =
        lookupD (d2.filter (fun p => (lookupD d1 p.1).isNone)) s := by
      simp only [add_amounts, lookupD] at *
      rw [List.lookup_append, hm]
      rfl
    have hfilt : lookupD (d2.filter (fun p => (lookupD d1 p.1).isNone)) s =
        lookupD d2 s :=
      lookupD_filter_key_true (fun k => (lookupD d1 k).isNone) d2 s (by simp [hl])
    simp [valOf, happ, hfilt, hl]

theorem valOf_negD (d : ValDict) (s : String) : valOf (negD d) s = -valOf d s := by
  simp only [valOf, negD, lookupD_mapVal]
  cases lookupD d s <;> simp

/-! ### Claims C7 and C10 -/

/-- Claim C7 (amended part): for every pair whose last bar has a nonzero
closing price, `get_bid_ask` returns bid = close − h and ask = close + h with
h = truncate(close·spread/100/2, quote_precision); for a pair with no bar seen
it returns (none, none). (The amendment: the original claim also promised the
formula for a zero closing price, which the code routes to the no-quote path;
see the counterexample and claim C10.) -/
theorem get_bid_ask_formula (st : QuoteState) (pair : Pair) :
    (∀ b : Bar, st.last_bars pair = some b → b.close ≠ 0 →
      get_bid_ask st pair =
        (some (b.close -
            truncate_decimal (b.close * st.bid_ask_spread / 100 / 2)
              (st.pair_info pair).quote_precision),
         some (b.close +
            truncate_decimal (b.close * st.bid_ask_spread / 100 / 2)
              (st.pair_info pair).quote_precision))) ∧
    (st.last_bars pair = none → get_bid_ask st pair = (none, none)) := by
  constructor
  · intro b hb hc
    simp [get_bid_ask, get_last_price, hb, hc]
  · intro h
    simp [get_bid_ask, get_last_price, h]

/-- Witness for `get_bid_ask_formula`: on a concrete state whose last BTC/USD
bar closes at 105 with a 0.5 spread, the formula applies. -/
theorem get_bid_ask_formula_witness :
    c7State.last_bars ⟨"BTC", "USD"⟩ = some c7Bar ∧ c7Bar.close ≠ 0 ∧
      get_bid_ask c7State ⟨"BTC", "USD"⟩ =
        (some (c7Bar.close -
            truncate_decimal (c7Bar.close * c7State.bid_ask_spread / 100 / 2)
              (c7State.pair_info ⟨"BTC", "USD"⟩).quote_precision),
         some (c7Bar.close +
            truncate_decimal (c7Bar.close * c7State.bid_ask_spread / 100 / 2)
              (c7State.pair_info ⟨"BTC", "USD"⟩).quote_precision)) :=
  ⟨rfl, by decide,
    (get_bid_ask_formula c7State ⟨"BTC", "USD"⟩).1 c7Bar rfl (by decide)⟩

/-- Claim C7 counterexample: a bar HAS been seen for ETH/USD (its close is 0),
yet `get_bid_ask` returns (none, none) instead of the claimed
(some (close − h), some (close + h)) = (some 0, some 0), because the source
tests `if last_price:` which is false for a zero price. -/
theorem get_bid_ask_zero_close_counterexample :
    c7ZeroState.last_bars ⟨"ETH", "USD"⟩ = some c7ZeroBar ∧
    get_bid_ask c7ZeroState ⟨"ETH", "USD"⟩ = (none, none) ∧
    get_bid_ask c7ZeroState ⟨"ETH", "USD"⟩ ≠
      (some (c7ZeroBar.close -
          truncate_decimal (c7ZeroBar.close * c7ZeroState.bid_ask_spread / 100 / 2)
            (c7ZeroState.pair_info ⟨"ETH", "USD"⟩).quote_precision),
       some (c7ZeroBar.close +
          truncate_decimal (c7ZeroBar.close * c7ZeroState.bid_ask_spread / 100 / 2)
            (c7ZeroState.pair_info ⟨"ETH", "USD"⟩).quote_precision)) := by
  refine ⟨rfl, rfl, ?_⟩
  decide

/-- Claim C10: `get_bid_ask` returns (none, none) not only when no bar has
been seen for the pair, but also whenever the last bar's closing price equals
zero, because the last price is tested for truthiness rather than presence. -/
theorem get_bid_ask_none_on_zero_close (st : QuoteState) (pair : Pair) (b : Bar)
    (hb : st.last_bars pair = some b) (hc : b.close = 0) :
    get_bid_ask st pair = (none, none) := by
  simp [get_bid_ask, get_last_price, hb, hc]

/-- Witness for `get_bid_ask_none_on_zero_close` at a concrete state. -/
theorem get_bid_ask_none_on_zero_close_witness :
    c10State.last_bars ⟨"XRP", "USD"⟩ = some c10Bar ∧ c10Bar.close = 0 ∧
      get_bid_ask c10State ⟨"XRP", "USD"⟩ = (none, none) :=
  ⟨rfl, rfl, get_bid_ask_none_on_zero_close c10State ⟨"XRP", "USD"⟩ c10Bar rfl rfl⟩

/-! ### Claim C9 -/

/-- Claim C9: every `Balance` returned by `get_balance` or `get_balances` has
interest equal to 0, so the reported total always equals
available + hold − borrowed; the facade never reports accrued loan interest,
for any symbol and any ledger state. -/
theorem balance_interest_always_zero (lg : OrderLedger) (symbol : String) :
    (get_balance lg symbol).interest = 0 ∧
    (get_balance lg symbol).total =
      (get_balance lg symbol).available + (get_balance lg symbol).hold -
        (get_balance lg symbol).borrowed ∧
    ∀ p ∈ get_balances lg, p.2.interest = 0 ∧
      p.2.total = p.2.available + p.2.hold - p.2.borrowed := by
  refine ⟨rfl, by simp [get_balance, Balance.total], ?_⟩
  intro p hp
  simp only [get_balances, List.mem_map] at hp
  obtain ⟨s, _, rfl⟩ := hp
  exact ⟨rfl, by simp [get_balance, Balance.total]⟩

/-- Witness for `balance_interest_always_zero` on a concrete ledger that has
an open loan position (borrowed BTC) and an order hold. -/
theorem balance_interest_always_zero_witness :
    ("USD", get_balance c9Ledger "USD") ∈ get_balances c9Ledger ∧
    (get_balance c9Ledger "USD").interest = 0 ∧
    (get_balance c9Ledger "USD").total =
      (get_balance c9Ledger "USD").available + (get_balance c9Ledger "USD").hold -
        (get_balance c9Ledger "USD").borrowed ∧
    (get_balance c9Ledger "BTC").interest = 0 :=
  ⟨List.mem_map_of_mem (fun s => (s, get_balance c9Ledger s)) (by simp [c9Ledger]),
    (balance_interest_always_zero c9Ledger "USD").1,
    (balance_interest_always_zero c9Ledger "USD").2.1,
    (balance_interest_always_zero c9Ledger "BTC").1⟩

/-! ### Claim C8 -/

theorem round_up_decimal_ne_zero (v : Dec) (n : ℕ) (h : v ≠ 0) :
    round_up_decimal v n ≠ 0 := by
  have hpow : (0 : ℚ) < (10 : ℚ) ^ n := by positivity
  rcases lt_trichotomy v 0 with hv | hv | hv
  · have hx : v * (10 : ℚ) ^ n < 0 := mul_neg_of_neg_of_pos hv hpow
    have hf : ⌊v * (10 : ℚ) ^ n⌋ < 0 := by
      have := Int.floor_lt.mpr (show v * (10 : ℚ) ^ n < ((0 : ℤ) : ℚ) by simpa using hx)
      simpa using this
    have hlt : round_up_decimal v n < 0 := by
      rw [round_up_decimal, if_neg (not_le.mpr hv)]
      exact div_neg_of_neg_of_pos (by exact_mod_cast hf) hpow
    exact ne_of_lt hlt
  · exact absurd hv h
  · have hx : 0 < v * (10 : ℚ) ^ n := mul_pos hv hpow
    have hc : 0 < ⌈v * (10 : ℚ) ^ n⌉ := Int.ceil_pos.mpr hx
    have hgt : 0 < round_up_decimal v n := by
      rw [round_up_decimal, if_pos (le_of_lt hv)]
      exact div_pos (by exact_mod_cast hc) hpow
    exact ne_of_gt hgt

/-- Lookup characterization of `_round_fees`: base/quote entries are rounded
up to the pair's precision, other symbols pass through, zero results are
dropped. -/
theorem round_fees_lookup (pi : PairInfo) (pair : Pair) (fees : ValDict)
    (hnd : (keysD fees).Nodup) (s : String) :
    lookupD (round_fees pi pair fees) s =
      match lookupD fees s with
      | none => none
      | some v =>
        let v1 := match precisions_get pair pi s with
          | some prec => if v ≠ 0 then round_up_decimal v prec else v
          | none => v
        if v1 = 0 then none else some v1 := by
  rw [round_fees,
    lookupD_remove_empty_amounts _ s (by rw [keysD_mapVal]; exact hnd),
    lookupD_mapVal]
  cases lookupD fees s with
  | none => rfl
  | some v => rfl

/-- Claim C8: for every fee map produced by the fee strategy, the engine
rounds the base-symbol fee up to base_precision and the quote-symbol fee up to
quote_precision (away from zero), leaves fees in any other symbol unrounded,
and discards entries that are zero after rounding. -/
theorem round_fees_spec (pi : PairInfo) (pair : Pair) (fees : ValDict)
    (hnd : (keysD fees).Nodup) :
    (∀ v, pair.base_symbol ≠ pair.quote_symbol →
      lookupD fees pair.base_symbol = some v → v ≠ 0 →
      lookupD (round_fees pi pair fees) pair.base_symbol =
        some (round_up_decimal v pi.base_precision)) ∧
    (∀ v, lookupD fees pair.quote_symbol = some v → v ≠ 0 →
      lookupD (round_fees pi pair fees) pair.quote_symbol =
        some (round_up_decimal v pi.quote_precision)) ∧
    (∀ s v, s ≠ pair.base_symbol → s ≠ pair.quote_symbol →
      lookupD fees s = some v →
      lookupD (round_fees pi pair fees) s = if v = 0 then none else some v) ∧
    (∀ s, valOf fees s = 0 → lookupD (round_fees pi pair fees) s = none) := by
  refine ⟨?_, ?_, ?_, ?_⟩
  · intro v hne hv hvz
    rw [round_fees_lookup pi pair fees hnd, hv]
    have hp : precisions_get pair pi pair.base_symbol = some pi.base_precision := by
      rw [precisions_get, if_neg hne, if_pos rfl]
    simp only [hp]
    rw [if_pos hvz, if_neg (round_up_decimal_ne_zero v pi.base_precision hvz)]
  · intro v hv hvz
    rw [round_fees_lookup pi pair fees hnd, hv]
    have hp : precisions_get pair pi pair.quote_symbol = some pi.quote_precision := by
      rw [precisions_get, if_pos rfl]
    simp only [hp]
    rw [if_pos hvz, if_neg (round_up_decimal_ne_zero v pi.quote_precision hvz)]
  · intro s v hb hq hv
    rw [round_fees_lookup pi pair fees hnd, hv]
    have hp : precisions_get pair pi s = none := by
      rw [precisions_get, if_neg hq, if_neg hb]
    simp [hp]
  · intro s hv
    rw [round_fees_lookup pi pair fees hnd]
    cases hl : lookupD fees s with
    | none => rfl
    | some v =>
      have hv0 : v = 0 := by
        rw [valOf, hl] at hv
        simpa using hv
      subst hv0
      cases hp : precisions_get pair pi s <;> simp [hp]

/-- Witness for `round_fees_spec` on a concrete fee map: the BTC (base) fee
1/3 is rounded up to 8 digits, the USD (quote) fee 0.003 rounds up to 0.01,
the BNB fee passes through unrounded, and the zero EUR fee is dropped. -/
theorem round_fees_spec_witness :
    (keysD c8Fees).Nodup ∧
    lookupD (round_fees c8Pi c8Pair c8Fees) "BTC" =
      some (round_up_decimal (1 / 3) 8) ∧
    lookupD (round_fees c8Pi c8Pair c8Fees) "USD" =
      some (round_up_decimal (3 / 1000) 2) ∧
    lookupD (round_fees c8Pi c8Pair c8Fees) "BNB" =
      (if (7 / 100 : Dec) = 0 then none else some (7 / 100)) ∧
    lookupD (round_fees c8Pi c8Pair c8Fees) "EUR" = none :=
  ⟨by decide,
    (round_fees_spec c8Pi c8Pair c8Fees (by decide)).1 (1 / 3) (by decide) rfl
      (by norm_num),
    (round_fees_spec c8Pi c8Pair c8Fees (by decide)).2.1 (3 / 1000) rfl
      (by norm_num),
    (round_fees_spec c8Pi c8Pair c8Fees (by decide)).2.2.1 "BNB" (7 / 100)
      (by decide) (by decide) rfl,
    (round_fees_spec c8Pi c8Pair c8Fees (by decide)).2.2.2 "EUR" (by
      show valOf c8Fees "EUR" = 0
      rfl)⟩

/-! ### Claim C5 -/

/-- Replacing the entry that `find?` located (all entries with its id) keeps
`find?` pointing at the replacement, provided the replacement still satisfies
the predicate. -/
theorem find?_map_replace (l : List Order) (order_id : String) (o o' : Order)
    (h : l.find? (fun x => x.id == order_id) = some o)
    (hid : (o'.id == order_id) = true) :
    (l.map (fun x => if x.id == order_id then o' else x)).find?
      (fun x => x.id == order_id) = some o' := by
  induction l with
  | nil => simp at h
  | cons a rest ih =>
    by_cases ha : (a.id == order_id) = true
    · have hhead : (if a.id == order_id then o' else a) = o' := by simp [ha]
      simp only [List.map_cons, hhead]
      exact List.find?_cons_of_pos _ hid
    · have hhead : (if a.id == order_id then o' else a) = a := by simp [ha]
      have h' : rest.find? (fun x => x.id == order_id) = some o := by
        rw [List.find?_cons_of_neg _ (by simp [ha])] at h
        exact h
      simp only [List.map_cons, hhead]
      rw [List.find?_cons_of_neg _ (by simp [ha])]
      exact ih h'

theorem cancel_id (o : Order) : o.cancel.id = o.id := rfl

theorem cancel_is_open (o : Order) : o.cancel.is_open = false := rfl

/-- Evaluation lemma: once `find?` locates the order, `cancel_order` reduces
to the open-state check. -/
theorem cancel_order_eq_of_find (st : CancelExchangeState) (order_id : String)
    (o : Order)
    (hfind : st.orders.find? (fun x => x.id == order_id) = some o) :
    cancel_order st order_id =
      if ¬ o.is_open then Except.error ExchangeError.illegalState
      else Except.ok
        { orders := st.orders.map (fun x => if x.id == order_id then o.cancel else x),
          ledger := st.ledger.order_updated o.cancel [] } := by
  unfold cancel_order
  rw [hfind]

/-- Claim C5: `cancel_order` raises exactly when the id is unknown or the
order is not open and then mutates nothing (the source raises before touching
any state, and the functional embedding returns only an error); otherwise it
cancels the order and releases its remaining holds via
`order_updated(order, {})`, and a second `cancel_order` on the same id fails
without mutating anything. -/
theorem cancel_order_spec (st : CancelExchangeState) (order_id : String) :
    (st.orders.find? (fun o => o.id == order_id) = none →
      cancel_order st order_id = Except.error ExchangeError.orderNotFound) ∧
    (∀ o, st.orders.find? (fun o => o.id == order_id) = some o →
      o.is_open = false →
      cancel_order st order_id = Except.error ExchangeError.illegalState) ∧
    (∀ o, st.orders.find? (fun o => o.id == order_id) = some o →
      o.is_open = true →
      ∃ st', cancel_order st order_id = Except.ok st' ∧
        st'.orders.find? (fun x => x.id == order_id) = some o.cancel ∧
        o.cancel.state = OrderState.canceled ∧
        (∀ s, st'.ledger.available s = st.ledger.available s + st.ledger.holds o.id s) ∧
        (∀ s, st'.ledger.holds o.id s = 0) ∧
        (∀ oid s, oid ≠ o.id → st'.ledger.holds oid s = st.ledger.holds oid s) ∧
        st'.ledger.borrowed = st.ledger.borrowed ∧
        cancel_order st' order_id = Except.error ExchangeError.illegalState) := by
  refine ⟨?_, ?_, ?_⟩
  · intro h
    simp [cancel_order, h]
  · intro o hfind hclosed
    simp [cancel_order, hfind, hclosed]
  · intro o hfind hopen
    have hpred : (o.id == order_id) = true :=
      List.find?_some (p := fun (x : Order) => x.id == order_id) hfind
    have hkeep : (o.cancel.id == order_id) = true := hpred
    have hnotopen : o.cancel.is_open = false := rfl
    have hnotnot : ¬ ¬ (o.is_open = true) := by simp [hopen]
    have hstep : cancel_order st order_id = Except.ok
        { orders := st.orders.map (fun x => if x.id == order_id then o.cancel else x),
          ledger := st.ledger.order_updated o.cancel [] } := by
      rw [cancel_order_eq_of_find st order_id o hfind, if_neg hnotnot]
    have hfind' :
        (st.orders.map (fun x => if x.id == order_id then o.cancel else x)).find?
          (fun x => x.id == order_id) = some o.cancel :=
      find?_map_replace st.orders order_id o o.cancel hfind hkeep
    refine ⟨{ orders := st.orders.map (fun x => if x.id == order_id then o.cancel else x),
              ledger := st.ledger.order_updated o.cancel [] },
      hstep, hfind', rfl, ?_, ?_, ?_, rfl, ?_⟩
    · intro s
      simp [OrderLedger.order_updated, cancel_is_open, cancel_id, valOf, lookupD]
    · intro s
      simp [OrderLedger.order_updated, cancel_is_open, cancel_id]
    · intro oid s hne
      simp [OrderLedger.order_updated, cancel_is_open, cancel_id, hne]
    · rw [cancel_order_eq_of_find _ order_id o.cancel hfind',
        if_pos (by simp [hnotopen])]

/-- Witness for `cancel_order_spec`: canceling the single open limit order of
a concrete exchange state releases its 97 USD hold, and a second cancel
fails. -/
theorem cancel_order_spec_witness :
    c5State.orders.find? (fun o => o.id == "o1") = some c5Order ∧
    c5Order.is_open = true ∧
    (∃ st', cancel_order c5State "o1" = Except.ok st' ∧
      st'.orders.find? (fun x => x.id == "o1") = some c5Order.cancel ∧
      c5Order.cancel.state = OrderState.canceled ∧
      (∀ s, st'.ledger.available s =
        c5State.ledger.available s + c5State.ledger.holds c5Order.id s) ∧
      (∀ s, st'.ledger.holds c5Order.id s = 0) ∧
      (∀ oid s, oid ≠ c5Order.id → st'.ledger.holds oid s = c5State.ledger.holds oid s) ∧
      st'.ledger.borrowed = c5State.ledger.borrowed ∧
      cancel_order st' "o1" = Except.error ExchangeError.illegalState) :=
  ⟨rfl, rfl, (cancel_order_spec c5State "o1").2.2 c5Order rfl rfl⟩

/-! ### Claim C1 -/

/-- Claim C1 (code bug): `_process_orders` never stores the freshly created
liquidity strategy back into `_liquidity_strategies` — the registry stays
unchanged on every call (first conjunct), so starting from a fresh exchange,
two consecutive BTC/USD bars are served by DIFFERENT strategy instances
(instances 0 and 1) and the retained map is still empty, contradicting the
claimed one-instance-per-pair lifetime. -/
theorem liquidity_strategy_not_retained :
    (∀ st barPair,
      (process_orders_strategy st barPair).2.liquidity_strategies =
        st.liquidity_strategies) ∧
    (run_bars initialRegistry [⟨"BTC", "USD"⟩, ⟨"BTC", "USD"⟩]).1 = [0, 1] ∧
    (0 : ℕ) ≠ 1 ∧
    (run_bars initialRegistry
        [⟨"BTC", "USD"⟩, ⟨"BTC", "USD"⟩]).2.liquidity_strategies = [] := by
  refine ⟨?_, rfl, by decide, rfl⟩
  intro st barPair
  rw [process_orders_strategy]
  cases st.liquidity_strategies.lookup barPair <;> rfl

/-! ### Claim C6 -/

theorem lookup_close_map (items : List (String × Bool)) (id x : String) :
    (items.map (fun p => (p.1, if p.1 = id then false else p.2))).lookup x =
      (items.lookup x).map (fun v => if x = id then false else v) := by
  induction items with
  | nil => rfl
  | cons p rest ih =>
    obtain ⟨k, v⟩ := p
    by_cases h : x = k
    · subst h
      simp [List.lookup]
    · have hb : (x == k) = false := by simpa using h
      simp only [List.map_cons, List.lookup, hb]
      exact ih

theorem not_mem_keys_of_lookup_none (items : List (String × Bool)) (id : String)
    (h : items.lookup id = none) : id ∉ items.map Prod.fst := by
  intro hmem
  obtain ⟨p, hp, hpe⟩ := List.mem_map.mp hmem
  rw [List.lookup_eq_none_iff] at h
  have := h p hp
  rw [hpe] at this
  simp at this

theorem item_is_open_append (items l2 : List (String × Bool)) (x : String)
    (h : (items.lookup x).isSome) :
    item_is_open (items ++ l2) x = item_is_open items x := by
  rw [item_is_open, item_is_open, List.lookup_append, Option.or_of_isSome h]

theorem lookup_append_right_single (items : List (String × Bool)) (id : String)
    (b : Bool) (h : items.lookup id = none) :
    (items ++ [(id, b)]).lookup id = some b := by
  rw [List.lookup_append, h]
  simp [List.lookup]

theorem item_is_open_close (items : List (String × Bool)) (id x : String) :
    item_is_open (items.map (fun p => (p.1, if p.1 = id then false else p.2))) x =
      if x = id then false else item_is_open items x := by
  rw [item_is_open, lookup_close_map]
  cases h : items.lookup x with
  | none => by_cases hx : x = id <;> simp [item_is_open, h, hx]
  | some v => by_cases hx : x = id <;> simp [item_is_open, h, hx]

theorem openIds_cons (k : String) (v : Bool) (rest : List (String × Bool)) :
    openIds ((k, v) :: rest) = (if v then [k] else []) ++ openIds rest := by
  cases v <;> simp [openIds, List.filter_cons]

theorem openIds_append_single (items : List (String × Bool)) (id : String)
    (b : Bool) :
    openIds (items ++ [(id, b)]) = openIds items ++ (if b then [id] else []) := by
  rw [openIds, List.filter_append]
  cases b <;> simp [openIds]

theorem openIds_close (items : List (String × Bool)) (id : String) :
    openIds (items.map (fun p => (p.1, if p.1 = id then false else p.2))) =
      (openIds items).filter (fun x => x != id) := by
  induction items with
  | nil => rfl
  | cons p rest ih =>
    obtain ⟨k, v⟩ := p
    rw [List.map_cons]
    by_cases hk : k = id
    · subst hk
      rw [if_pos rfl, openIds_cons, openIds_cons, ih]
      cases v <;> simp
    · rw [if_neg hk, openIds_cons, openIds_cons, ih]
      have hbne : (k != id) = true := by simpa using hk
      cases v <;> simp [List.filter_cons, hbne]

theorem mem_keys_of_mem_openIds (items : List (String × Bool)) (x : String)
    (h : x ∈ openIds items) : x ∈ items.map Prod.fst := by
  rw [openIds] at h
  obtain ⟨p, hp, hpe⟩ := List.mem_map.mp h
  exact hpe ▸ List.mem_map_of_mem Prod.fst (List.mem_of_mem_filter hp)

theorem mem_openIds_iff (items : List (String × Bool)) (x : String)
    (hnd : (items.map Prod.fst).Nodup) :
    x ∈ openIds items ↔ item_is_open items x = true := by
  induction items with
  | nil => simp [openIds, item_is_open]
  | cons p rest ih =>
    obtain ⟨k, v⟩ := p
    simp only [List.map_cons, List.nodup_cons] at hnd
    rw [openIds_cons]
    by_cases hx : x = k
    · subst hx
      have hnot : x ∉ openIds rest := fun hmem =>
        hnd.1 (mem_keys_of_mem_openIds rest x hmem)
      have hopen : item_is_open ((x, v) :: rest) x = v := by
        simp [item_is_open, List.lookup]
      rw [hopen]
      cases v <;> simp [hnot]
    · have hopen : item_is_open ((k, v) :: rest) x = item_is_open rest x := by
        have hb : (x == k) = false := by simpa using hx
        simp [item_is_open, List.lookup, hb]
      rw [hopen, ← ih hnd.2]
      cases v <;> simp [hx]

theorem nodup_openIds (items : List (String × Bool))
    (hnd : (items.map Prod.fst).Nodup) : (openIds items).Nodup := by
  rw [openIds]
  exact hnd.sublist ((List.filter_sublist items).map Prod.fst)

theorem get_open_items_unchanged (c : Container) : c.get_open.2.items = c.items := by
  rw [Container.get_open]
  by_cases hc : ((c.reindex_counter + 1) % 50 == 0) = true <;> simp [hc]

theorem get_open_fst (c : Container) :
    c.get_open.1 = c.open_items.filter (fun id => item_is_open c.items id) := by
  rw [Container.get_open]
  by_cases hc : ((c.reindex_counter + 1) % 50 == 0) = true <;> simp [hc]

theorem get_open_snd_open_items (c : Container) :
    c.get_open.2.open_items = c.open_items ∨
    c.get_open.2.open_items =
      c.open_items.filter (fun id => item_is_open c.items id) := by
  rw [Container.get_open]
  by_cases hc : ((c.reindex_counter + 1) % 50 == 0) = true
  · right
    simp [hc]
  · left
    simp [hc]

theorem containerInv_empty : ContainerInv Container.empty :=
  ⟨List.nodup_nil, List.nodup_nil, by intro id h; simp [Container.empty] at h, rfl⟩

theorem containerInv_add (c : Container) (id : String) (b : Bool)
    (h : ContainerInv c) : ContainerInv (c.add id b) := by
  by_cases hg : (c.items.lookup id).isSome = true
  · rw [Container.add, if_pos hg]
    exact h
  · have hnone : c.items.lookup id = none := by
      cases hl : c.items.lookup id with
      | none => rfl
      | some v => rw [hl] at hg; simp at hg
    have hkey : id ∉ c.items.map Prod.fst := not_mem_keys_of_lookup_none c.items id hnone
    have hidx : id ∉ c.open_items := fun hmem => by
      have hreg := h.index_reg id hmem
      rw [hnone] at hreg
      simp at hreg
    have hold : ∀ x ∈ c.open_items,
        item_is_open (c.items ++ [(id, b)]) x = item_is_open c.items x := fun x hx =>
      item_is_open_append c.items [(id, b)] x (h.index_reg x hx)
    have hnew : item_is_open (c.items ++ [(id, b)]) id = b := by
      rw [item_is_open, lookup_append_right_single c.items id b hnone]
      rfl
    have hknd : ((c.items ++ [(id, b)]).map Prod.fst).Nodup := by
      simp only [List.map_append, List.map_cons, List.map_nil]
      rw [List.nodup_append]
      refine ⟨h.keys_nodup, by simp, ?_⟩
      intro a ha hb2
      simp only [List.mem_singleton] at hb2
      exact hkey (hb2 ▸ ha)
    have hreg2 : ∀ x ∈ c.open_items,
        ((c.items ++ [(id, b)]).lookup x).isSome = true := by
      intro x hx
      rw [List.lookup_append]
      have := h.index_reg x hx
      simp [Option.or_of_isSome this, this]
    cases b with
    | false =>
      have hadd : c.add id false =
          { items := c.items ++ [(id, false)], open_items := c.open_items,
            reindex_counter := c.reindex_counter } := by
        rw [Container.add, if_neg hg]
        rfl
      rw [hadd]
      refine ⟨hknd, h.index_nodup, hreg2, ?_⟩
      show c.open_items.filter (fun x => item_is_open (c.items ++ [(id, false)]) x) =
        openIds (c.items ++ [(id, false)])
      rw [List.filter_congr hold, h.index_filter, openIds_append_single]
      simp
    | true =>
      have hadd : c.add id true =
          { items := c.items ++ [(id, true)], open_items := c.open_items ++ [id],
            reindex_counter := c.reindex_counter } := by
        rw [Container.add, if_neg hg]
        rfl
      rw [hadd]
      refine ⟨hknd, ?_, ?_, ?_⟩
      · show (c.open_items ++ [id]).Nodup
        rw [List.nodup_append]
        refine ⟨h.index_nodup, by simp, ?_⟩
        intro a ha hb2
        simp only [List.mem_singleton] at hb2
        exact hidx (hb2 ▸ ha)
      · show ∀ x ∈ c.open_items ++ [id], ((c.items ++ [(id, true)]).lookup x).isSome = true
        intro x hx
        rcases List.mem_append.mp hx with hx' | hx'
        · exact hreg2 x hx'
        · simp only [List.mem_singleton] at hx'
          subst hx'
          rw [lookup_append_right_single c.items x true hnone]
          rfl
      · show (c.open_items ++ [id]).filter
            (fun x => item_is_open (c.items ++ [(id, true)]) x) =
          openIds (c.items ++ [(id, true)])
        rw [List.filter_append, List.filter_congr hold, h.index_filter,
          openIds_append_single]
        simp [hnew]

theorem containerInv_close (c : Container) (id : String)
    (h : ContainerInv c) : ContainerInv (c.close id) := by
  have hkeys : ((c.close id).items.map Prod.fst) = c.items.map Prod.fst := by
    show ((c.items.map (fun p => (p.1, if p.1 = id then false else p.2))).map
      Prod.fst) = c.items.map Prod.fst
    rw [List.map_map]
    rfl
  have hitems : (c.close id).items =
      c.items.map (fun p => (p.1, if p.1 = id then false else p.2)) := rfl
  have hopen : (c.close id).open_items = c.open_items := rfl
  constructor
  · rw [hkeys]
    exact h.keys_nodup
  · rw [hopen]
    exact h.index_nodup
  · intro x hx
    rw [hopen] at hx
    rw [hitems, lookup_close_map]
    have := h.index_reg x hx
    simpa using this
  · rw [hopen, hitems, openIds_close]
    have hpt : ∀ x ∈ c.open_items,
        item_is_open (c.items.map (fun p => (p.1, if p.1 = id then false else p.2))) x =
          ((x != id) && item_is_open c.items x) := by
      intro x _
      rw [item_is_open_close]
      by_cases hx : x = id
      · simp [hx]
      · have hbne : (x != id) = true := by simpa using hx
        simp [hx, hbne]
    rw [List.filter_congr hpt, ← List.filter_filter, h.index_filter]

theorem containerInv_getOpen (c : Container) (h : ContainerInv c) :
    ContainerInv c.get_open.2 := by
  have hitems := get_open_items_unchanged c
  rcases get_open_snd_open_items c with ho | ho
  · exact ⟨by rw [hitems]; exact h.keys_nodup,
      by rw [ho]; exact h.index_nodup,
      by rw [ho, hitems]; exact h.index_reg,
      by rw [ho, hitems]; exact h.index_filter⟩
  · refine ⟨by rw [hitems]; exact h.keys_nodup, ?_, ?_, ?_⟩
    · rw [ho]
      exact h.index_nodup.filter _
    · intro x hx
      rw [ho] at hx
      rw [hitems]
      exact h.index_reg x (List.mem_of_mem_filter hx)
    · rw [ho, hitems, List.filter_filter]
      have hqq : (fun a => item_is_open c.items a && item_is_open c.items a)
          = (fun a => item_is_open c.items a) := by
        funext a
        cases item_is_open c.items a <;> rfl
      rw [hqq, h.index_filter]

theorem containerInv_foldl (c : Container) (h : ContainerInv c)
    (ops : List ContainerOp) : ContainerInv (ops.foldl Container.applyOp c) := by
  induction ops generalizing c with
  | nil => exact h
  | cons op rest ih =>
    rw [List.foldl_cons]
    apply ih
    cases op with
    | add id b => exact containerInv_add c id b h
    | close id => exact containerInv_close c id h
    | getOpen => exact containerInv_getOpen c h

theorem containerInv_run (ops : List ContainerOp) :
    ContainerInv (Container.run ops) :=
  containerInv_foldl Container.empty containerInv_empty ops

/-- Claim C6: after any sequence of add/close/get_open operations starting
from an empty container, `get_open` yields exactly the items that are still
open, in insertion order, with no open item skipped or duplicated; the pass
leaves the registry untouched, and the index after the call (in particular on
every 50th, compacting, call) is a sublist of the previous index that still
contains every open item — only stale closed entries are ever removed. -/
theorem container_get_open_spec (ops : List ContainerOp) :
    (Container.run ops).get_open.1 = openIds (Container.run ops).items ∧
    (Container.run ops).get_open.1.Nodup ∧
    (Container.run ops).get_open.2.open_items.Sublist
      (Container.run ops).open_items ∧
    (∀ id, item_is_open (Container.run ops).items id = true →
      id ∈ (Container.run ops).get_open.2.open_items) ∧
    (Container.run ops).get_open.2.items = (Container.run ops).items := by
  have h := containerInv_run ops
  have hyield : (Container.run ops).get_open.1 = openIds (Container.run ops).items := by
    rw [get_open_fst, h.index_filter]
  refine ⟨hyield, ?_, ?_, ?_, get_open_items_unchanged _⟩
  · rw [hyield]
    exact nodup_openIds _ h.keys_nodup
  · rcases get_open_snd_open_items (Container.run ops) with ho | ho
    · rw [ho]
    · rw [ho]
      exact List.filter_sublist _
  · intro id hopen
    have hmem : id ∈ openIds (Container.run ops).items :=
      (mem_openIds_iff _ id h.keys_nodup).mpr hopen
    have hmem2 : id ∈ (Container.run ops).open_items.filter
        (fun x => item_is_open (Container.run ops).items x) := by
      rw [h.index_filter]
      exact hmem
    rcases get_open_snd_open_items (Container.run ops) with ho | ho
    · rw [ho]
      exact List.mem_of_mem_filter hmem2
    · rw [ho]
      exact hmem2

/-- Witness for `container_get_open_spec` on a concrete operation sequence:
after adding a, b, c and closing a, `get_open` yields exactly [b, c] and both
stay in the index. -/
theorem container_get_open_spec_witness :
    (Container.run c6Ops).get_open.1 = openIds (Container.run c6Ops).items ∧
    (Container.run c6Ops).get_open.1 = ["b", "c"] ∧
    item_is_open (Container.run c6Ops).items "b" = true ∧
    "b" ∈ (Container.run c6Ops).get_open.2.open_items :=
  ⟨(container_get_open_spec c6Ops).1, by decide, by decide,
    (container_get_open_spec c6Ops).2.2.2.1 "b" (by decide)⟩

/-! ### Claims C2 and C4 -/

theorem not_filled_id (o : Order) : o.not_filled.id = o.id := by
  unfold Order.not_filled
  cases o.kind <;> rfl

theorem not_filled_fills (o : Order) : o.not_filled.fills = o.fills := by
  unfold Order.not_filled
  cases o.kind <;> rfl

theorem not_filled_amount_filled (o : Order) :
    o.not_filled.amount_filled = o.amount_filled := by
  unfold Order.not_filled
  cases o.kind <;> rfl

theorem apply_not_filled_fst (order : Order) (lg : OrderLedger) :
    (apply_not_filled order lg).1 = order.not_filled := by
  rw [apply_not_filled]
  by_cases h : order.not_filled.is_open = true <;> simp [h]

theorem apply_not_filled_available (order : Order) (lg : OrderLedger) (s : String) :
    (apply_not_filled order lg).2.available s =
      lg.available s +
        (if order.not_filled.is_open then 0 else lg.holds order.id s) := by
  by_cases h : order.not_filled.is_open = true
  · simp [apply_not_filled, h]
  · have hh : order.not_filled.is_open = false := by
      cases hb : order.not_filled.is_open
      · rfl
      · exact absurd hb h
    simp [apply_not_filled, hh, OrderLedger.order_updated, valOf, lookupD,
      not_filled_id]

theorem apply_not_filled_borrowed (order : Order) (lg : OrderLedger) :
    (apply_not_filled order lg).2.borrowed = lg.borrowed := by
  by_cases h : order.not_filled.is_open = true
  · simp [apply_not_filled, h]
  · have hh : order.not_filled.is_open = false := by
      cases hb : order.not_filled.is_open
      · rfl
      · exact absurd hb h
    simp [apply_not_filled, hh, OrderLedger.order_updated]

theorem has_value_nonempty (d : ValDict) (s : String) (g : Dec)
    (h : has_value_with_sign d s g = true) : d.isEmpty = false := by
  cases d with
  | nil => simp [has_value_with_sign, lookupD] at h
  | cons p rest => rfl

/-- With `raise_if_short = False` the walk never raises (requirements are
positive) and returns whether every requirement fits inside
available + hold_for_order. -/
theorem check_balance_requirements_no_raise (lg : OrderLedger) (i : String)
    (req : List (String × Dec)) (acc : Bool) (hpos : ∀ p ∈ req, 0 < p.2) :
    check_balance_requirements lg (some i) false req acc =
      Except.ok (acc &&
        req.all (fun p => decide (p.2 ≤ lg.available p.1 + lg.holds i p.1))) := by
  induction req generalizing acc with
  | nil => simp [check_balance_requirements]
  | cons p rest ih =>
    obtain ⟨symbol, required⟩ := p
    have hp : (0 : Dec) < required := hpos (symbol, required) (List.mem_cons_self _ _)
    rw [check_balance_requirements, if_neg (not_le.mpr hp)]
    have hpos' : ∀ q ∈ rest, (0 : Dec) < q.2 :=
      fun q hq => hpos q (List.mem_cons_of_mem _ hq)
    by_cases hok : required ≤ lg.available symbol + lg.holds i symbol
    · rw [if_pos hok, ih acc hpos']
      simp [List.all_cons, hok]
    · rw [if_neg hok]
      simp only [Bool.false_eq_true, if_false]
      rw [ih false hpos']
      simp [List.all_cons, hok]

theorem required_of_pos (final : ValDict) : ∀ p ∈ required_of final, 0 < p.2 := by
  intro p hp
  rw [required_of, mapVal] at hp
  obtain ⟨q, hq, hqe⟩ := List.mem_map.mp hp
  have hq2 := (List.mem_filter.mp hq).2
  have hqlt : q.2 < 0 := by simpa using hq2
  cases hqe
  simpa using hqlt

/-- Lookup characterization of `_round_balance_updates`. -/
theorem round_balance_updates_lookup (pi : PairInfo) (pair : Pair) (d : ValDict)
    (hnd : (keysD d).Nodup) (s : String) :
    lookupD (round_balance_updates pi pair d) s =
      match lookupD d s with
      | none => none
      | some v =>
        let v1 := if s = pair.base_symbol ∧ v ≠ 0 then
          truncate_decimal v pi.base_precision else v
        let v2 := if s = pair.quote_symbol ∧ v1 ≠ 0 then
          round_decimal v1 pi.quote_precision else v1
        if v2 = 0 then none else some v2 := by
  rw [round_balance_updates]
  rw [lookupD_remove_empty_amounts _ s (by rw [keysD_mapVal, keysD_mapVal]; exact hnd)]
  rw [lookupD_mapVal, lookupD_mapVal]
  cases lookupD d s with
  | none => rfl
  | some v => rfl

/-- The not-filled early exit of `_process_order`: with the asserts passing
and the base or quote entry gone after rounding, the order takes the
not-filled treatment and nothing else happens. -/
theorem process_order_not_filled_branch (pi : PairInfo)
    (calc_fees : Order → ValDict → ValDict) (bu0 : ValDict) (bar_pair : Pair)
    (order : Order) (lg : OrderLedger) (liquidity : Dec)
    (hsb : has_value_with_sign bu0 order.pair.base_symbol
      (get_base_sign_for_operation order.operation) = true)
    (hsq : has_value_with_sign bu0 order.pair.quote_symbol
      (-(get_base_sign_for_operation order.operation)) = true)
    (hnone : (lookupD (round_balance_updates pi order.pair bu0)
        order.pair.base_symbol).isNone = true ∨
      (lookupD (round_balance_updates pi order.pair bu0)
        order.pair.quote_symbol).isNone = true) :
    process_order pi calc_fees bu0 bar_pair order lg liquidity =
      Except.ok ⟨(apply_not_filled order lg).1, (apply_not_filled order lg).2,
        liquidity⟩ := by
  have hemp : bu0.isEmpty = false := has_value_nonempty bu0 _ _ hsb
  unfold process_order
  rw [if_neg (by simp [hemp])]
  rw [if_neg (by simp [hsb])]
  rw [if_neg (by simp [hsq])]
  rw [if_pos hnone]

/-- The shortfall exit of `_process_order`: with the asserts passing, both
sides surviving the rounding, and the balance check coming back False, the
order takes the not-filled treatment, no exception escapes, and the liquidity
budget is untouched. -/
theorem process_order_short_branch (pi : PairInfo)
    (calc_fees : Order → ValDict → ValDict) (bu0 : ValDict) (bar_pair : Pair)
    (order : Order) (lg : OrderLedger) (liquidity : Dec)
    (hsb : has_value_with_sign bu0 order.pair.base_symbol
      (get_base_sign_for_operation order.operation) = true)
    (hsq : has_value_with_sign bu0 order.pair.quote_symbol
      (-(get_base_sign_for_operation order.operation)) = true)
    (hbs : (lookupD (round_balance_updates pi order.pair bu0)
      order.pair.base_symbol).isNone = false)
    (hqs : (lookupD (round_balance_updates pi order.pair bu0)
      order.pair.quote_symbol).isNone = false)
    (hcheck : check_balance_requirements lg (some order.id) false
      (required_of (remove_empty_amounts (add_amounts
        (round_balance_updates pi order.pair bu0)
        (round_fees pi order.pair
          (calc_fees order (round_balance_updates pi order.pair bu0)))))) true =
      Except.ok false) :
    process_order pi calc_fees bu0 bar_pair order lg liquidity =
      Except.ok ⟨(apply_not_filled order lg).1, (apply_not_filled order lg).2,
        liquidity⟩ := by
  have hemp : bu0.isEmpty = false := has_value_nonempty bu0 _ _ hsb
  unfold process_order
  rw [if_neg (by simp [hemp])]
  rw [if_neg (by simp [hsb])]
  rw [if_neg (by simp [hsq])]
  rw [if_neg (by simp [hbs, hqs])]
  dsimp only
  rw [hcheck]
  rfl

/-- Claim C2 (amended): during per-bar matching a balance shortfall never
raises an error to the caller: the engine compares each required amount (the
negated negative entries of the final updates) against
available(sym) + hold_for_order(order.id, sym), and if any symbol is short the
order is treated as not filled for that bar — no fill is recorded, no
liquidity is taken, borrowed balances never change, and the only balance
movement is the release of the order's remaining holds when the not-filled
transition closes the order (a canceled market order). (Amendment: the
original claim's "no balance changes" fails exactly on that hold release; see
the counterexample.) -/
theorem process_order_shortfall_spec (pi : PairInfo)
    (calc_fees : Order → ValDict → ValDict) (bu0 : ValDict) (bar_pair : Pair)
    (order : Order) (lg : OrderLedger) (liquidity : Dec)
    (hsb : has_value_with_sign bu0 order.pair.base_symbol
      (get_base_sign_for_operation order.operation) = true)
    (hsq : has_value_with_sign bu0 order.pair.quote_symbol
      (-(get_base_sign_for_operation order.operation)) = true)
    (hbs : (lookupD (round_balance_updates pi order.pair bu0)
      order.pair.base_symbol).isNone = false)
    (hqs : (lookupD (round_balance_updates pi order.pair bu0)
      order.pair.quote_symbol).isNone = false)
    (hshort : ∃ p ∈ required_of (remove_empty_amounts (add_amounts
        (round_balance_updates pi order.pair bu0)
        (round_fees pi order.pair (calc_fees order
          (round_balance_updates pi order.pair bu0))))),
      lg.available p.1 + lg.holds order.id p.1 < p.2) :
    process_order pi calc_fees bu0 bar_pair order lg liquidity =
      Except.ok ⟨order.not_filled, (apply_not_filled order lg).2, liquidity⟩ ∧
    order.not_filled.fills = order.fills ∧
    order.not_filled.amount_filled = order.amount_filled ∧
    (∀ s, (apply_not_filled order lg).2.available s =
      lg.available s +
        (if order.not_filled.is_open then 0 else lg.holds order.id s)) ∧
    (apply_not_filled order lg).2.borrowed = lg.borrowed := by
  obtain ⟨p, hp, hlt⟩ := hshort
  have hcheck : check_balance_requirements lg (some order.id) false
      (required_of (remove_empty_amounts (add_amounts
        (round_balance_updates pi order.pair bu0)
        (round_fees pi order.pair (calc_fees order
          (round_balance_updates pi order.pair bu0)))))) true =
      Except.ok false := by
    rw [check_balance_requirements_no_raise lg order.id _ true (required_of_pos _)]
    have hall : (required_of (remove_empty_amounts (add_amounts
        (round_balance_updates pi order.pair bu0)
        (round_fees pi order.pair (calc_fees order
          (round_balance_updates pi order.pair bu0)))))).all
        (fun q => decide (q.2 ≤ lg.available q.1 + lg.holds order.id q.1)) =
        false := by
      rw [List.all_eq_false]
      exact ⟨p, hp, by simp [not_le.mpr hlt]⟩
    rw [hall]
    rfl
  have hmain := process_order_short_branch pi calc_fees bu0 bar_pair order lg
    liquidity hsb hsq hbs hqs hcheck
  rw [apply_not_filled_fst] at hmain
  exact ⟨hmain, not_filled_fills order, not_filled_amount_filled order,
    fun s => apply_not_filled_available order lg s,
    apply_not_filled_borrowed order lg⟩

/-- Claim C4 (amended): rounding a candidate fill truncates the base amount
toward zero to base_precision and rounds the quote amount half-even to
quote_precision, dropping entries that became zero; if either the base or the
quote entry is gone after rounding, the order is treated as not filled for
that bar — no fill is recorded, no liquidity is taken, borrowed balances never
change, and the only state change is the not-filled transition itself plus the
release of the order's holds when that transition closes the order.
(Amendment: the original claim's "no state changes" fails on a market order,
which the not-filled transition cancels, releasing its holds; see the
counterexample.) -/
theorem round_balance_updates_abandon_spec (pi : PairInfo)
    (calc_fees : Order → ValDict → ValDict) (bu0 : ValDict) (bar_pair : Pair)
    (order : Order) (lg : OrderLedger) (liquidity : Dec) (vb vq : Dec)
    (hnd : (keysD bu0).Nodup)
    (hbq : order.pair.base_symbol ≠ order.pair.quote_symbol)
    (hvb : lookupD bu0 order.pair.base_symbol = some vb)
    (hvq : lookupD bu0 order.pair.quote_symbol = some vq)
    (hsb : has_value_with_sign bu0 order.pair.base_symbol
      (get_base_sign_for_operation order.operation) = true)
    (hsq : has_value_with_sign bu0 order.pair.quote_symbol
      (-(get_base_sign_for_operation order.operation)) = true) :
    (lookupD (round_balance_updates pi order.pair bu0) order.pair.base_symbol =
      if truncate_decimal vb pi.base_precision = 0 then none
      else some (truncate_decimal vb pi.base_precision)) ∧
    (lookupD (round_balance_updates pi order.pair bu0) order.pair.quote_symbol =
      if round_decimal vq pi.quote_precision = 0 then none
      else some (round_decimal vq pi.quote_precision)) ∧
    (truncate_decimal vb pi.base_precision = 0 ∨
        round_decimal vq pi.quote_precision = 0 →
      process_order pi calc_fees bu0 bar_pair order lg liquidity =
        Except.ok ⟨order.not_filled, (apply_not_filled order lg).2, liquidity⟩ ∧
      order.not_filled.fills = order.fills ∧
      order.not_filled.amount_filled = order.amount_filled ∧
      (∀ s, (apply_not_filled order lg).2.available s =
        lg.available s +
          (if order.not_filled.is_open then 0 else lg.holds order.id s)) ∧
      (apply_not_filled order lg).2.borrowed = lg.borrowed) := by
  have hvb0 : vb ≠ 0 := by
    simp only [has_value_with_sign, hvb, Bool.and_eq_true, decide_eq_true_eq] at hsb
    exact hsb.1
  have hvq0 : vq ≠ 0 := by
    simp only [has_value_with_sign, hvq, Bool.and_eq_true, decide_eq_true_eq] at hsq
    exact hsq.1
  have hbase : lookupD (round_balance_updates pi order.pair bu0)
      order.pair.base_symbol =
      if truncate_decimal vb pi.base_precision = 0 then none
      else some (truncate_decimal vb pi.base_precision) := by
    rw [round_balance_updates_lookup pi order.pair bu0 hnd, hvb]
    dsimp only
    have h1 : order.pair.base_symbol = order.pair.base_symbol ∧ vb ≠ 0 :=
      ⟨rfl, hvb0⟩
    rw [if_pos h1]
    have h2 : ¬ (order.pair.base_symbol = order.pair.quote_symbol ∧
        truncate_decimal vb pi.base_precision ≠ 0) := fun hc => hbq hc.1
    rw [if_neg h2]
  have hquote : lookupD (round_balance_updates pi order.pair bu0)
      order.pair.quote_symbol =
      if round_decimal vq pi.quote_precision = 0 then none
      else some (round_decimal vq pi.quote_precision) := by
    rw [round_balance_updates_lookup pi order.pair bu0 hnd, hvq]
    dsimp only
    have h1 : ¬ (order.pair.quote_symbol = order.pair.base_symbol ∧ vq ≠ 0) :=
      fun hc => hbq hc.1.symm
    rw [if_neg h1]
    have h2 : order.pair.quote_symbol = order.pair.quote_symbol ∧ vq ≠ 0 :=
      ⟨rfl, hvq0⟩
    rw [if_pos h2]
  refine ⟨hbase, hquote, ?_⟩
  intro h0
  have hnone : (lookupD (round_balance_updates pi order.pair bu0)
      order.pair.base_symbol).isNone = true ∨
      (lookupD (round_balance_updates pi order.pair bu0)
        order.pair.quote_symbol).isNone = true := by
    rcases h0 with h0 | h0
    · left
      rw [hbase, if_pos h0]
      rfl
    · right
      rw [hquote, if_pos h0]
      rfl
  have hmain := process_order_not_filled_branch pi calc_fees bu0 bar_pair order
    lg liquidity hsb hsq hnone
  rw [apply_not_filled_fst] at hmain
  exact ⟨hmain, not_filled_fills order, not_filled_amount_filled order,
    fun s => apply_not_filled_available order lg s,
    apply_not_filled_borrowed order lg⟩

theorem c2_base_sign : get_base_sign_for_operation c2Order.operation = 1 := rfl

theorem c2_hsb : has_value_with_sign c2Updates c2Order.pair.base_symbol
    (get_base_sign_for_operation c2Order.operation) = true := by
  have hl : lookupD c2Updates c2Order.pair.base_symbol = some 1 := rfl
  simp only [has_value_with_sign, hl, c2_base_sign, Bool.and_eq_true,
    decide_eq_true_eq]
  norm_num [get_sign]

theorem c2_hsq : has_value_with_sign c2Updates c2Order.pair.quote_symbol
    (-(get_base_sign_for_operation c2Order.operation)) = true := by
  have hl : lookupD c2Updates c2Order.pair.quote_symbol = some (-100) := rfl
  simp only [has_value_with_sign, hl, c2_base_sign, Bool.and_eq_true,
    decide_eq_true_eq]
  norm_num [get_sign]

theorem c2_rounded : round_balance_updates c2Pi c2Order.pair c2Updates =
    [("BTC", 1), ("USD", -100)] := by
  have ht : truncate_decimal 1 c2Pi.base_precision = 1 := by
    norm_num [truncate_decimal, c2Pi]
  have hr : round_decimal (-100) c2Pi.quote_precision = -100 := by
    norm_num [round_decimal, roundHalfEven, c2Pi]
  have hne1 : ("BTC" : String) = c2Order.pair.base_symbol ∧ (1 : Dec) ≠ 0 :=
    ⟨rfl, by norm_num⟩
  have hne2 : ¬ (("USD" : String) = c2Order.pair.base_symbol ∧ (-100 : Dec) ≠ 0) :=
    fun hc => absurd hc.1 (by decide)
  have hne3 : ¬ (("BTC" : String) = c2Order.pair.quote_symbol ∧ (1 : Dec) ≠ 0) :=
    fun hc => absurd hc.1 (by decide)
  have hne4 : ("USD" : String) = c2Order.pair.quote_symbol ∧ (-100 : Dec) ≠ 0 :=
    ⟨rfl, by norm_num⟩
  show remove_empty_amounts (mapVal _ (mapVal _ c2Updates)) = _
  rw [c2Updates]
  rw [show mapVal (fun s v => if s = c2Order.pair.base_symbol ∧ v ≠ 0 then
      truncate_decimal v c2Pi.base_precision else v)
      [("BTC", 1), ("USD", -100)] = [("BTC", 1), ("USD", -100)] from by
    simp only [mapVal, List.map_cons, List.map_nil]
    rw [if_pos hne1, if_neg hne2, ht]]
  rw [show mapVal (fun s v => if s = c2Order.pair.quote_symbol ∧ v ≠ 0 then
      round_decimal v c2Pi.quote_precision else v)
      [("BTC", 1), ("USD", -100)] = [("BTC", 1), ("USD", -100)] from by
    simp only [mapVal, List.map_cons, List.map_nil]
    rw [if_neg hne3, if_pos hne4, hr]]
  show List.filter _ _ = _
  rw [List.filter_cons, List.filter_cons, List.filter_nil]
  norm_num

theorem c2_final : remove_empty_amounts (add_amounts
    (round_balance_updates c2Pi c2Order.pair c2Updates)
    (round_fees c2Pi c2Order.pair ((fun (_ : Order) (_ : ValDict) => ([] : ValDict))
      c2Order (round_balance_updates c2Pi c2Order.pair c2Updates)))) =
    [("BTC", 1), ("USD", -100)] := by
  rw [c2_rounded]
  have hfees : round_fees c2Pi c2Order.pair [] = [] := rfl
  rw [hfees]
  have hadd : add_amounts [("BTC", (1 : Dec)), ("USD", -100)] [] =
      [("BTC", 1), ("USD", -100)] := by
    simp [add_amounts, mapVal, valOf, lookupD]
  rw [hadd]
  show List.filter _ _ = _
  rw [List.filter_cons, List.filter_cons, List.filter_nil]
  norm_num

theorem c2_required : required_of [("BTC", (1 : Dec)), ("USD", -100)] =
    [("USD", 100)] := by
  rw [required_of]
  rw [show List.filter (fun p => decide (p.2 < 0)) [("BTC", (1 : Dec)), ("USD", -100)] =
      [("USD", -100)] from by
    rw [List.filter_cons, List.filter_cons, List.filter_nil]
    norm_num]
  simp only [mapVal, List.map_cons, List.map_nil]
  norm_num

theorem c2_check : check_balance_requirements c2Ledger (some c2Order.id) false
    [("USD", 100)] true = Except.ok false := by
  rw [check_balance_requirements]
  rw [if_neg (by norm_num : ¬ (100 : Dec) ≤ 0)]
  have havail : c2Ledger.available "USD" +
      (match some c2Order.id with
       | some i => c2Ledger.holds i "USD"
       | none => 0) = 90 := by
    show (50 : Dec) + 40 = 90
    norm_num
  rw [if_neg (by rw [havail]; norm_num : ¬ (100 : Dec) ≤ c2Ledger.available "USD" +
    (match some c2Order.id with
     | some i => c2Ledger.holds i "USD"
     | none => 0))]
  rfl

/-- Claim C2 counterexample: a market BUY with 40 USD held for it and 50 USD
available is short of the 100 USD the bar requires, so it is not filled — but
"no balance changes" is false: the not-filled transition cancels the market
order and releases its hold, moving available USD from 50 to 90. -/
theorem process_order_shortfall_counterexample :
    c2Ledger.available "USD" + c2Ledger.holds c2Order.id "USD" < 100 ∧
    ("USD", (100 : Dec)) ∈ required_of (remove_empty_amounts (add_amounts
      (round_balance_updates c2Pi c2Order.pair c2Updates)
      (round_fees c2Pi c2Order.pair ((fun (_ : Order) (_ : ValDict) => ([] : ValDict))
        c2Order (round_balance_updates c2Pi c2Order.pair c2Updates))))) ∧
    process_order c2Pi (fun _ _ => []) c2Updates ⟨"BTC", "USD"⟩ c2Order c2Ledger 10 =
      Except.ok ⟨c2Order.not_filled, (apply_not_filled c2Order c2Ledger).2, 10⟩ ∧
    c2Order.not_filled.state = OrderState.canceled ∧
    (apply_not_filled c2Order c2Ledger).2.available "USD" = 90 ∧
    c2Ledger.available "USD" = 50 ∧
    (apply_not_filled c2Order c2Ledger).2.available "USD" ≠
      c2Ledger.available "USD" := by
  have hshortnum : c2Ledger.available "USD" + c2Ledger.holds c2Order.id "USD" < 100 := by
    show (50 : Dec) + 40 < 100
    norm_num
  have hmem : ("USD", (100 : Dec)) ∈ required_of (remove_empty_amounts (add_amounts
      (round_balance_updates c2Pi c2Order.pair c2Updates)
      (round_fees c2Pi c2Order.pair ((fun (_ : Order) (_ : ValDict) => ([] : ValDict))
        c2Order (round_balance_updates c2Pi c2Order.pair c2Updates))))) := by
    rw [c2_final, c2_required]
    exact List.mem_singleton.mpr rfl
  have hbs : (lookupD (round_balance_updates c2Pi c2Order.pair c2Updates)
      c2Order.pair.base_symbol).isNone = false := by
    rw [c2_rounded]
    rfl
  have hqs : (lookupD (round_balance_updates c2Pi c2Order.pair c2Updates)
      c2Order.pair.quote_symbol).isNone = false := by
    rw [c2_rounded]
    rfl
  have hcheck : check_balance_requirements c2Ledger (some c2Order.id) false
      (required_of (remove_empty_amounts (add_amounts
        (round_balance_updates c2Pi c2Order.pair c2Updates)
        (round_fees c2Pi c2Order.pair ((fun (_ : Order) (_ : ValDict) => ([] : ValDict))
          c2Order (round_balance_updates c2Pi c2Order.pair c2Updates)))))) true =
      Except.ok false := by
    rw [c2_final, c2_required, c2_check]
  have hrun := process_order_short_branch c2Pi (fun _ _ => []) c2Updates
    ⟨"BTC", "USD"⟩ c2Order c2Ledger 10 c2_hsb c2_hsq hbs hqs hcheck
  rw [apply_not_filled_fst] at hrun
  have hcancel : c2Order.not_filled.state = OrderState.canceled := rfl
  have hnotopen : c2Order.not_filled.is_open = false := rfl
  have havail90 : (apply_not_filled c2Order c2Ledger).2.available "USD" = 90 := by
    rw [apply_not_filled_available, hnotopen]
    show (50 : Dec) + (if false = true then 0 else 40) = 90
    norm_num
  have havail50 : c2Ledger.available "USD" = 50 := rfl
  refine ⟨hshortnum, hmem, hrun, hcancel, havail90, havail50, ?_⟩
  rw [havail90, havail50]
  norm_num

/-- Witness for `process_order_shortfall_spec` at the concrete shortfall
scenario. -/
theorem process_order_shortfall_spec_witness :
    has_value_with_sign c2Updates c2Order.pair.base_symbol
      (get_base_sign_for_operation c2Order.operation) = true ∧
    (∃ p ∈ required_of (remove_empty_amounts (add_amounts
        (round_balance_updates c2Pi c2Order.pair c2Updates)
        (round_fees c2Pi c2Order.pair ((fun (_ : Order) (_ : ValDict) => ([] : ValDict))
          c2Order (round_balance_updates c2Pi c2Order.pair c2Updates))))),
      c2Ledger.available p.1 + c2Ledger.holds c2Order.id p.1 < p.2) ∧
    process_order c2Pi (fun _ _ => []) c2Updates ⟨"BTC", "USD"⟩ c2Order c2Ledger 20 =
      Except.ok ⟨c2Order.not_filled, (apply_not_filled c2Order c2Ledger).2, 20⟩ ∧
    c2Order.not_filled.fills = c2Order.fills ∧
    c2Order.not_filled.amount_filled = c2Order.amount_filled := by
  have hshort : ∃ p ∈ required_of (remove_empty_amounts (add_amounts
      (round_balance_updates c2Pi c2Order.pair c2Updates)
      (round_fees c2Pi c2Order.pair ((fun (_ : Order) (_ : ValDict) => ([] : ValDict))
        c2Order (round_balance_updates c2Pi c2Order.pair c2Updates))))),
      c2Ledger.available p.1 + c2Ledger.holds c2Order.id p.1 < p.2 := by
    refine ⟨("USD", 100), ?_, ?_⟩
    · rw [c2_final, c2_required]
      exact List.mem_singleton.mpr rfl
    · show (50 : Dec) + 40 < 100
      norm_num
  have hbs : (lookupD (round_balance_updates c2Pi c2Order.pair c2Updates)
      c2Order.pair.base_symbol).isNone = false := by
    rw [c2_rounded]
    rfl
  have hqs : (lookupD (round_balance_updates c2Pi c2Order.pair c2Updates)
      c2Order.pair.quote_symbol).isNone = false := by
    rw [c2_rounded]
    rfl
  have hmain := process_order_shortfall_spec c2Pi (fun _ _ => []) c2Updates
    ⟨"BTC", "USD"⟩ c2Order c2Ledger 20 c2_hsb c2_hsq hbs hqs hshort
  exact ⟨c2_hsb, hshort, hmain.1, hmain.2.1, hmain.2.2.1⟩

theorem c4_base_sign : get_base_sign_for_operation c4Order.operation = 1 := rfl

theorem c4_hsb : has_value_with_sign c4Updates c4Order.pair.base_symbol
    (get_base_sign_for_operation c4Order.operation) = true := by
  have hl : lookupD c4Updates c4Order.pair.base_symbol = some (1 / 2) := rfl
  simp only [has_value_with_sign, hl, c4_base_sign, Bool.and_eq_true,
    decide_eq_true_eq]
  norm_num [get_sign]

theorem c4_hsq : has_value_with_sign c4Updates c4Order.pair.quote_symbol
    (-(get_base_sign_for_operation c4Order.operation)) = true := by
  have hl : lookupD c4Updates c4Order.pair.quote_symbol = some (-50) := rfl
  simp only [has_value_with_sign, hl, c4_base_sign, Bool.and_eq_true,
    decide_eq_true_eq]
  norm_num [get_sign]

theorem c4_trunc : truncate_decimal (1 / 2) c4Pi.base_precision = 0 := by
  norm_num [truncate_decimal, c4Pi]

theorem c4_rounded : round_balance_updates c4Pi c4Order.pair c4Updates =
    [("USD", -50)] := by
  have hr : round_decimal (-50) c4Pi.quote_precision = -50 := by
    norm_num [round_decimal, roundHalfEven, c4Pi]
  have hne1 : ("BTC" : String) = c4Order.pair.base_symbol ∧ (1 / 2 : Dec) ≠ 0 :=
    ⟨rfl, by norm_num⟩
  have hne2 : ¬ (("USD" : String) = c4Order.pair.base_symbol ∧ (-50 : Dec) ≠ 0) :=
    fun hc => absurd hc.1 (by decide)
  have hne3 : ¬ (("BTC" : String) = c4Order.pair.quote_symbol ∧ (0 : Dec) ≠ 0) :=
    fun hc => absurd hc.2 (by norm_num)
  have hne4 : ("USD" : String) = c4Order.pair.quote_symbol ∧ (-50 : Dec) ≠ 0 :=
    ⟨rfl, by norm_num⟩
  show remove_empty_amounts (mapVal _ (mapVal _ c4Updates)) = _
  rw [c4Updates]
  rw [show mapVal (fun s v => if s = c4Order.pair.base_symbol ∧ v ≠ 0 then
      truncate_decimal v c4Pi.base_precision else v)
      [("BTC", 1 / 2), ("USD", -50)] = [("BTC", 0), ("USD", -50)] from by
    simp only [mapVal, List.map_cons, List.map_nil]
    rw [if_pos hne1, if_neg hne2, c4_trunc]]
  rw [show mapVal (fun s v => if s = c4Order.pair.quote_symbol ∧ v ≠ 0 then
      round_decimal v c4Pi.quote_precision else v)
      [("BTC", 0), ("USD", -50)] = [("BTC", 0), ("USD", -50)] from by
    simp only [mapVal, List.map_cons, List.map_nil]
    rw [if_neg hne3, if_pos hne4, hr]]
  show List.filter _ _ = _
  rw [List.filter_cons, List.filter_cons, List.filter_nil]
  norm_num

/-- Claim C4 counterexample: a market BUY for 0.5 BTC against base_precision 0
has its base amount truncated to zero, so the fill is abandoned — but "no
state changes" is false: the not-filled treatment cancels the market order
(state OPEN → CANCELED) and releases its 60 USD hold (available 1000 →
1060). -/
theorem round_abandon_counterexample :
    truncate_decimal (1 / 2) c4Pi.base_precision = 0 ∧
    lookupD (round_balance_updates c4Pi c4Order.pair c4Updates)
      c4Order.pair.base_symbol = none ∧
    process_order c4Pi (fun _ _ => []) c4Updates ⟨"BTC", "USD"⟩ c4Order c4Ledger 10 =
      Except.ok ⟨c4Order.not_filled, (apply_not_filled c4Order c4Ledger).2, 10⟩ ∧
    c4Order.state = OrderState.open_ ∧
    c4Order.not_filled.state = OrderState.canceled ∧
    (apply_not_filled c4Order c4Ledger).2.available "USD" = 1060 ∧
    c4Ledger.available "USD" = 1000 := by
  have hlnone : lookupD (round_balance_updates c4Pi c4Order.pair c4Updates)
      c4Order.pair.base_symbol = none := by
    rw [c4_rounded]
    rfl
  have hnone : (lookupD (round_balance_updates c4Pi c4Order.pair c4Updates)
      c4Order.pair.base_symbol).isNone = true ∨
      (lookupD (round_balance_updates c4Pi c4Order.pair c4Updates)
        c4Order.pair.quote_symbol).isNone = true := by
    left
    rw [hlnone]
    rfl
  have hrun := process_order_not_filled_branch c4Pi (fun _ _ => []) c4Updates
    ⟨"BTC", "USD"⟩ c4Order c4Ledger 10 c4_hsb c4_hsq hnone
  rw [apply_not_filled_fst] at hrun
  have hnotopen : c4Order.not_filled.is_open = false := rfl
  have havail : (apply_not_filled c4Order c4Ledger).2.available "USD" = 1060 := by
    rw [apply_not_filled_available, hnotopen]
    show (1000 : Dec) + (if false = true then 0 else 60) = 1060
    norm_num
  exact ⟨c4_trunc, hlnone, hrun, rfl, rfl, havail, rfl⟩

/-- Witness for `round_balance_updates_abandon_spec` at the concrete
half-BTC market order whose base amount truncates to zero. -/
theorem round_balance_updates_abandon_spec_witness :
    (keysD c4Updates).Nodup ∧
    c4Order.pair.base_symbol ≠ c4Order.pair.quote_symbol ∧
    lookupD c4Updates c4Order.pair.base_symbol = some (1 / 2) ∧
    truncate_decimal (1 / 2) c4Pi.base_precision = 0 ∧
    lookupD (round_balance_updates c4Pi c4Order.pair c4Updates)
      c4Order.pair.base_symbol =
      (if truncate_decimal (1 / 2) c4Pi.base_precision = 0 then none
       else some (truncate_decimal (1 / 2) c4Pi.base_precision)) ∧
    process_order c4Pi (fun _ _ => []) c4Updates ⟨"BTC", "USD"⟩ c4Order c4Ledger 15 =
      Except.ok ⟨c4Order.not_filled, (apply_not_filled c4Order c4Ledger).2, 15⟩ ∧
    c4Order.not_filled.fills = c4Order.fills := by
  have hmain := round_balance_updates_abandon_spec c4Pi (fun _ _ => []) c4Updates
    ⟨"BTC", "USD"⟩ c4Order c4Ledger 15 (1 / 2) (-50) (by decide) (by decide)
    rfl rfl c4_hsb c4_hsq
  have habandon := hmain.2.2 (Or.inl c4_trunc)
  exact ⟨by decide, by decide, rfl, c4_trunc, hmain.1, habandon.1, habandon.2.1⟩

/-! ### Claim C3 -/

theorem valOf_singleton (k : String) (v : Dec) (s : String) :
    valOf [(k, v)] s = if s = k then v else 0 := by
  by_cases h : s = k
  · subst h
    simp [valOf, lookupD, List.lookup]
  · have hb : (s == k) = false := by simpa using h
    simp [valOf, lookupD, List.lookup, hb, h]

theorem loan_close_id (l : Loan) : l.close.id = l.id := rfl

theorem loan_close_is_open (l : Loan) : l.close.is_open = false := rfl

theorem find?_map_close (l : List Loan) (loan_id : String) (a : Loan)
    (h : l.find? (fun x => x.id == loan_id) = some a) :
    (l.map (fun x => if x.id == loan_id then x.close else x)).find?
      (fun x => x.id == loan_id) = some a.close := by
  induction l with
  | nil => simp at h
  | cons x rest ih =>
    by_cases hx : (x.id == loan_id) = true
    · have hfound : x = a := by
        have hstep : List.find? (fun x => x.id == loan_id) (x :: rest) = some x :=
          List.find?_cons_of_pos (p := fun (x : Loan) => x.id == loan_id) rest hx
        rw [hstep] at h
        exact Option.some.inj h
      subst hfound
      have hhead : (if x.id == loan_id then x.close else x) = x.close := by
        simp [hx]
      simp only [List.map_cons, hhead]
      exact List.find?_cons_of_pos _ (show (x.close.id == loan_id) = true from hx)
    · have hhead : (if x.id == loan_id then x.close else x) = x := by simp [hx]
      have h' : rest.find? (fun x => x.id == loan_id) = some a := by
        rw [List.find?_cons_of_neg _ (by simp [hx])] at h
        exact h
      simp only [List.map_cons, hhead]
      rw [List.find?_cons_of_neg _ (by simp [hx])]
      exact ih h'

theorem lookup_filter_bne_none {β : Type} (d : List (String × β)) (k : String) :
    (d.filter (fun p => !(p.1 == k))).lookup k = none := by
  rw [List.lookup_eq_none_iff]
  intro p hp
  have h2 := (List.mem_filter.mp hp).2
  simp only [Bool.not_eq_eq_eq_not, Bool.not_true, beq_eq_false_iff_ne, ne_eq] at h2
  simp only [bne_iff_ne, ne_eq]
  intro he
  exact h2 he.symm

/-- Claim C3: `repay_loan` raises when the loan id is unknown or the loan is
already closed; otherwise it truncates each interest amount to the symbol's
configured precision and atomically debits the borrowed amount from available
and borrowed of the borrowed symbol, debits available for each interest
symbol, and releases the collateral holds; if available would go negative
anywhere it raises NotEnoughBalance and produces no state change (the loan
stays open, balances untouched). -/
theorem repay_loan_spec (st : LoanManagerState) (loan_id : String) :
    (st.loans.find? (fun l => l.id == loan_id) = none →
      repay_loan st loan_id = Except.error LendingError.loanNotFound) ∧
    (∀ loan, st.loans.find? (fun l => l.id == loan_id) = some loan →
      loan.is_open = false →
      repay_loan st loan_id = Except.error LendingError.loanNotOpen) ∧
    (∀ loan, st.loans.find? (fun l => l.id == loan_id) = some loan →
      loan.is_open = true →
      ∀ interest collateral bu,
        interest = mapVal (fun s v => truncate_decimal v (st.symbol_precision s))
          loan.interest_at_repay →
        collateral = (st.collateral_by_loan.lookup loan_id).getD [] →
        bu = add_amounts [(loan.borrowed_symbol, -loan.borrowed_amount)]
          (negD interest) →
        ((bu.any (fun p =>
            decide (st.balances.available p.1 + valOf bu p.1 < 0)) = true →
          repay_loan st loan_id = Except.error LendingError.notEnoughBalance) ∧
         (bu.any (fun p =>
            decide (st.balances.available p.1 + valOf bu p.1 < 0)) = false →
          ∃ st1, repay_loan st loan_id = Except.ok st1 ∧
            (∀ s, st1.balances.available s =
              st.balances.available s -
                (if s = loan.borrowed_symbol then loan.borrowed_amount else 0) -
                valOf interest s) ∧
            (∀ s, st1.balances.borrowed s =
              st.balances.borrowed s -
                (if s = loan.borrowed_symbol then loan.borrowed_amount else 0)) ∧
            (∀ s, st1.balances.hold s = st.balances.hold s - valOf collateral s) ∧
            st1.loans.find? (fun l => l.id == loan_id) = some loan.close ∧
            loan.close.is_open = false ∧
            st1.collateral_by_loan.lookup loan_id = none))) := by
  refine ⟨?_, ?_, ?_⟩
  · intro h
    unfold repay_loan
    rw [h]
  · intro loan hfind hclosed
    unfold repay_loan
    rw [hfind]
    dsimp only
    rw [if_pos (by simp [hclosed])]
  · intro loan hfind hopen interest collateral bu hi hc hbu
    subst hi
    subst hc
    subst hbu
    constructor
    · intro hshort
      have hupd : LoanLedger.update st.balances
          (add_amounts [(loan.borrowed_symbol, -loan.borrowed_amount)]
            (negD (mapVal (fun s v => truncate_decimal v (st.symbol_precision s))
              loan.interest_at_repay)))
          [(loan.borrowed_symbol, -loan.borrowed_amount)]
          (negD ((st.collateral_by_loan.lookup loan_id).getD [])) =
          Except.error LendingError.notEnoughBalance := by
        unfold LoanLedger.update
        rw [if_pos hshort]
      unfold repay_loan
      rw [hfind]
      dsimp only
      rw [if_neg (by simp [hopen])]
      rw [hupd]
    · intro hok
      have hupd : LoanLedger.update st.balances
          (add_amounts [(loan.borrowed_symbol, -loan.borrowed_amount)]
            (negD (mapVal (fun s v => truncate_decimal v (st.symbol_precision s))
              loan.interest_at_repay)))
          [(loan.borrowed_symbol, -loan.borrowed_amount)]
          (negD ((st.collateral_by_loan.lookup loan_id).getD [])) =
          Except.ok
            { available := fun s => st.balances.available s +
                valOf (add_amounts [(loan.borrowed_symbol, -loan.borrowed_amount)]
                  (negD (mapVal (fun s v => truncate_decimal v (st.symbol_precision s))
                    loan.interest_at_repay))) s,
              borrowed := fun s => st.balances.borrowed s +
                valOf [(loan.borrowed_symbol, -loan.borrowed_amount)] s,
              hold := fun s => st.balances.hold s +
                valOf (negD ((st.collateral_by_loan.lookup loan_id).getD [])) s } := by
        unfold LoanLedger.update
        rw [if_neg (by simp [hok])]
      have hstep : repay_loan st loan_id = Except.ok
          { loans := st.loans.map (fun l => if l.id == loan_id then l.close else l),
            collateral_by_loan := st.collateral_by_loan.filter (fun p => !(p.1 == loan_id)),
            balances :=
              { available := fun s => st.balances.available s +
                  valOf (add_amounts [(loan.borrowed_symbol, -loan.borrowed_amount)]
                    (negD (mapVal (fun s v => truncate_decimal v (st.symbol_precision s))
                      loan.interest_at_repay))) s,
                borrowed := fun s => st.balances.borrowed s +
                  valOf [(loan.borrowed_symbol, -loan.borrowed_amount)] s,
                hold := fun s => st.balances.hold s +
                  valOf (negD ((st.collateral_by_loan.lookup loan_id).getD [])) s },
            symbol_precision := st.symbol_precision } := by
        unfold repay_loan
        rw [hfind]
        dsimp only
        rw [if_neg (by simp [hopen])]
        rw [hupd]
      refine ⟨_, hstep, ?_, ?_, ?_, ?_, loan_close_is_open loan, ?_⟩
      · intro s
        show st.balances.available s +
          valOf (add_amounts [(loan.borrowed_symbol, -loan.borrowed_amount)]
            (negD (mapVal (fun s v => truncate_decimal v (st.symbol_precision s))
              loan.interest_at_repay))) s = _
        rw [valOf_add_amounts, valOf_singleton, valOf_negD]
        by_cases h : s = loan.borrowed_symbol <;> simp [h] <;> ring
      · intro s
        show st.balances.borrowed s +
          valOf [(loan.borrowed_symbol, -loan.borrowed_amount)] s = _
        rw [valOf_singleton]
        by_cases h : s = loan.borrowed_symbol
        · rw [if_pos h, if_pos h]
          ring
        · rw [if_neg h, if_neg h]
          ring
      · intro s
        show st.balances.hold s +
          valOf (negD ((st.collateral_by_loan.lookup loan_id).getD [])) s = _
        rw [valOf_negD]
        ring
      · exact find?_map_close st.loans loan_id loan hfind
      · exact lookup_filter_bne_none st.collateral_by_loan loan_id

theorem c3_interest : mapVal (fun s v => truncate_decimal v (c3State.symbol_precision s))
    c3Loan.interest_at_repay = [("USDT", 3)] := by
  show [("USDT", truncate_decimal (7 / 2) (c3State.symbol_precision "USDT"))] = _
  norm_num [truncate_decimal, c3State]

theorem c3_bu : add_amounts [(c3Loan.borrowed_symbol, -c3Loan.borrowed_amount)]
    (negD (mapVal (fun s v => truncate_decimal v (c3State.symbol_precision s))
      c3Loan.interest_at_repay)) = [("USDT", -103)] := by
  rw [c3_interest]
  have hnegd : negD [("USDT", (3 : Dec))] = [("USDT", -3)] := by
    norm_num [negD, mapVal]
  rw [hnegd]
  show mapVal _ [("USDT", -(100 : Dec))] ++
    List.filter _ [("USDT", (-3 : Dec))] = _
  have hval : valOf [("USDT", (-3 : Dec))] "USDT" = -3 := by
    rw [valOf_singleton]
    norm_num
  have hmap : mapVal (fun s v => v + valOf [("USDT", (-3 : Dec))] s)
      [("USDT", -(100 : Dec))] = [("USDT", -103)] := by
    simp only [mapVal, List.map_cons, List.map_nil, hval]
    norm_num
  rw [hmap]
  have hfilt : List.filter
      (fun p => (lookupD [(c3Loan.borrowed_symbol, -c3Loan.borrowed_amount)] p.1).isNone)
      [("USDT", (-3 : Dec))] = [] := by
    rw [List.filter_cons]
    simp [lookupD, List.lookup, c3Loan]
  rw [hfilt]
  simp

theorem c3_no_shortfall :
    (add_amounts [(c3Loan.borrowed_symbol, -c3Loan.borrowed_amount)]
      (negD (mapVal (fun s v => truncate_decimal v (c3State.symbol_precision s))
        c3Loan.interest_at_repay))).any (fun p =>
      decide (c3State.balances.available p.1 +
        valOf (add_amounts [(c3Loan.borrowed_symbol, -c3Loan.borrowed_amount)]
          (negD (mapVal (fun s v => truncate_decimal v (c3State.symbol_precision s))
            c3Loan.interest_at_repay))) p.1 < 0)) = false := by
  rw [c3_bu]
  simp only [List.any_cons, List.any_nil, Bool.or_false]
  have hsum : c3State.balances.available "USDT" +
      valOf [("USDT", (-103 : Dec))] "USDT" = 47 := by
    show (150 : Dec) + valOf [("USDT", (-103 : Dec))] "USDT" = 47
    rw [valOf_singleton]
    norm_num
  rw [hsum]
  simp only [decide_eq_false_iff_not, not_lt]
  norm_num

/-- Witness for `repay_loan_spec`: repaying the open 100-USDT loan of a
concrete manager state with 150 USDT available and 3.5 USDT raw interest
(truncated to 3 at precision 0) succeeds. -/
theorem repay_loan_spec_witness :
    c3State.loans.find? (fun l => l.id == "l1") = some c3Loan ∧
    c3Loan.is_open = true ∧
    (add_amounts [(c3Loan.borrowed_symbol, -c3Loan.borrowed_amount)]
      (negD (mapVal (fun s v => truncate_decimal v (c3State.symbol_precision s))
        c3Loan.interest_at_repay))).any (fun p =>
      decide (c3State.balances.available p.1 +
        valOf (add_amounts [(c3Loan.borrowed_symbol, -c3Loan.borrowed_amount)]
          (negD (mapVal (fun s v => truncate_decimal v (c3State.symbol_precision s))
            c3Loan.interest_at_repay))) p.1 < 0)) = false ∧
    (∃ st1, repay_loan c3State "l1" = Except.ok st1 ∧
      (∀ s, st1.balances.available s = c3State.balances.available s -
        (if s = c3Loan.borrowed_symbol then c3Loan.borrowed_amount else 0) -
        valOf (mapVal (fun s v => truncate_decimal v (c3State.symbol_precision s))
          c3Loan.interest_at_repay) s) ∧
      (∀ s, st1.balances.borrowed s = c3State.balances.borrowed s -
        (if s = c3Loan.borrowed_symbol then c3Loan.borrowed_amount else 0)) ∧
      (∀ s, st1.balances.hold s = c3State.balances.hold s -
        valOf ((c3State.collateral_by_loan.lookup "l1").getD []) s) ∧
      st1.loans.find? (fun l => l.id == "l1") = some c3Loan.close ∧
      c3Loan.close.is_open = false ∧
      st1.collateral_by_loan.lookup "l1" = none) := by
  have hfind : c3State.loans.find? (fun l => l.id == "l1") = some c3Loan := rfl
  have hmain := ((repay_loan_spec c3State "l1").2.2 c3Loan hfind rfl
    (mapVal (fun s v => truncate_decimal v (c3State.symbol_precision s))
      c3Loan.interest_at_repay)
    ((c3State.collateral_by_loan.lookup "l1").getD [])
    (add_amounts [(c3Loan.borrowed_symbol, -c3Loan.borrowed_amount)]
      (negD (mapVal (fun s v => truncate_decimal v (c3State.symbol_precision s))
        c3Loan.interest_at_repay)))
    rfl rfl rfl).2 c3_no_shortfall
  exact ⟨hfind, rfl, c3_no_shortfall, hmain⟩

end Basana
